import Mathlib

/-!
Verification of the bounded-window SFTP file-transfer engine in
`src/plugin/writer/sftp/main.py`.

The download engine (`_SFTPFileDownloader`) keeps at most 48 read requests
outstanding, dispatches asynchronously-arriving responses by correlation id,
buffers out-of-order chunks and flushes them to the sink strictly in offset
order.  We model the engine as a state machine driven by the list of protocol
frames arriving on the connection, one frame consumed per blocking receive.

Bytes are modelled as `Nat`, the remote file as a `List Nat`, the two Python
dicts (`requested_chunks`, `received_chunks`) as association lists.  Ghost
fields (`issued`, `writeLog`, `cbLog`) record the requests sent on the
connection, the sink writes and the progress-callback invocations; they are
write-only and never influence control flow.
-/

namespace SftpEngine

/-- `_SFTPFileDownloader._DOWNLOAD_MAX_REQUESTS` (window limit). -/
def DOWNLOAD_MAX_REQUESTS : Nat := 48

/-- `_SFTPFileDownloader._DOWNLOAD_MAX_CHUNK_SIZE` (0x8000 = 32768). -/
def DOWNLOAD_MAX_CHUNK_SIZE : Nat := 0x8000

/-- Errors raised by the downloader (`SFTPError`, saved status exceptions,
the deadlock `ValueError`, and exceptions escaping the progress callback). -/
inductive SFTPErr where
  /-- `raise SFTPError("Expected data")` for a frame that is neither
  `CMD_STATUS` nor `CMD_DATA`. -/
  | expectedData : SFTPErr
  /-- `raise SFTPError("Invalid data block size. Expected ...")`. -/
  | sizeMismatch (expected actual : Nat) : SFTPErr
  /-- An exception produced by `_convert_status` on a `CMD_STATUS` frame. -/
  | statusErr (msg : String) : SFTPErr
  /-- The `ValueError` raised by the deadlock/queue-consistency check. -/
  | queueError : SFTPErr
  /-- An exception raised by the progress callback. -/
  | callbackErr (msg : String) : SFTPErr
  deriving DecidableEq, Repr

/-- A protocol frame delivered by `sftp._read_response()` to
`_async_response(t, msg, num)`: a `CMD_DATA` frame with its payload, a
`CMD_STATUS` frame (where `some msg` means `_convert_status` raises an
exception and `none` means it returns normally), or any other packet type. -/
inductive Frame where
  | dataF (num : Nat) (payload : List Nat) : Frame
  | statusF (num : Nat) (err : Option String) : Frame
  | otherF : Frame
  deriving DecidableEq, Repr

/-- One entry of the `received_chunks` dict: the code stores
`received_chunks[offset] = (offset, size, data)`. -/
structure RecvChunk where
  offset : Nat
  size : Nat
  data : List Nat
  deriving DecidableEq, Repr

/-- The downloader state.  `receivedSize` is the running `received_size`
local of `download` (the committed byte count), `requestedSize` the
`requested_size` local, `nextId` the next correlation id
(`sftp_client.request_number`).  `output` is the byte content written to
`f_out`.  `issued`, `writeLog` and `cbLog` are ghost observation logs:
requests sent on the wire as `(offset, size)`, sink writes as
`(chunk offset, bytes)`, and the arguments passed to the callback. -/
structure DLState where
  fileSize : Nat
  requestedSize : Nat
  receivedSize : Nat
  nextId : Nat
  requested_chunks : List (Nat × Nat × Nat)
  received_chunks : List RecvChunk
  saved_exception : Option SFTPErr
  output : List Nat
  issued : List (Nat × Nat)
  writeLog : List (Nat × List Nat)
  cbLog : List (List Nat)
  deriving DecidableEq, Repr

/-- Lookup in the `requested_chunks` dict (`requested_chunks.pop(num, None)`
read part): the value stored under correlation id `k`. -/
def plookup (k : Nat) : List (Nat × Nat × Nat) → Option (Nat × Nat)
  | [] => none
  | p :: rest => if p.1 = k then some p.2 else plookup k rest

/-- Removal from the `requested_chunks` dict (`pop`): keys are unique, so
removing the first entry with id `k` models dict deletion. -/
def perase (k : Nat) : List (Nat × Nat × Nat) → List (Nat × Nat × Nat)
  | [] => []
  | p :: rest => if p.1 = k then rest else p :: perase k rest

/-- `received_chunks[offset] = (offset, size, data)`: overwrite the entry
with the same key if present, otherwise add the entry. -/
def rinsert (ch : RecvChunk) : List RecvChunk → List RecvChunk
  | [] => [ch]
  | c :: rest => if c.offset = ch.offset then ch :: rest else c :: rinsert ch rest

/-- `received_chunks.pop(received_size, None)`: remove and return the entry
stored under key `k`, if any. -/
def rpop (k : Nat) : List RecvChunk → Option (RecvChunk × List RecvChunk)
  | [] => none
  | c :: rest =>
    if c.offset = k then some (c, rest)
    else
      match rpop k rest with
      | none => none
      | some (c2, rest2) => some (c2, c :: rest2)

/-- One pass of the request-issuing loop, with structural fuel: each
iteration advances `requested_size` by at least one byte, so
`fileSize - requestedSize` bounds the iteration count and the fuel never
runs out (see `fillWindowF_stop`). -/
def fillWindowF : Nat → DLState → DLState
  | 0, st => st
  | fuel + 1, st =>
    if st.requested_chunks.length + st.received_chunks.length < DOWNLOAD_MAX_REQUESTS ∧
        st.requestedSize < st.fileSize then
      fillWindowF fuel { st with
        requested_chunks :=
          st.requested_chunks ++
            [(st.nextId, st.requestedSize,
              min DOWNLOAD_MAX_CHUNK_SIZE (st.fileSize - st.requestedSize))],
        issued :=
          st.issued ++
            [(st.requestedSize, min DOWNLOAD_MAX_CHUNK_SIZE (st.fileSize - st.requestedSize))],
        nextId := st.nextId + 1,
        requestedSize :=
          st.requestedSize + min DOWNLOAD_MAX_CHUNK_SIZE (st.fileSize - st.requestedSize) }
    else st

/-- The request-issuing loop at the top of `download`'s `while True` body:
while the window has capacity and bytes remain unrequested, compute
`chunk_size = min(_DOWNLOAD_MAX_CHUNK_SIZE, file_size - requested_size)`,
send an async read request under a fresh id (`_sftp_async_read_request`),
record it in `requested_chunks` and advance `requested_size`. -/
def fillWindow (st : DLState) : DLState :=
  fillWindowF (st.fileSize - st.requestedSize) st

/-- `_async_response(t, msg, num)`.  On `CMD_STATUS` the status is converted;
an exception from the conversion is saved in `saved_exception` and dispatch
returns normally.  Any other non-data packet raises `SFTPError("Expected
data")`.  On `CMD_DATA` the matching pending request is popped (unknown or
already-resolved ids are ignored), the payload size is checked against the
requested size (mismatch raises `SFTPError`), and the chunk is stored in
`received_chunks` under its offset.  Errors carry the state at the raise. -/
def async_response (st : DLState) (f : Frame) : Except (SFTPErr × DLState) DLState :=
  match f with
  | .statusF _num err =>
    match err with
    | some msg => .ok { st with saved_exception := some (.statusErr msg) }
    | none => .ok st
  | .otherF => .error (.expectedData, st)
  | .dataF num d =>
    match plookup num st.requested_chunks with
    | none => .ok st
    | some (off, sz) =>
      if sz ≠ d.length then
        .error (.sizeMismatch sz d.length,
          { st with requested_chunks := perase num st.requested_chunks })
      else
        .ok { st with
          requested_chunks := perase num st.requested_chunks,
          received_chunks := rinsert ⟨off, sz, d⟩ st.received_chunks }

/-- `_check_exception`: if a status exception was saved during dispatch,
clear it and raise it; the raise happens here, at the driver's next
inspection of the session, not inside the dispatch. -/
def check_exception (st : DLState) : Except (SFTPErr × DLState) DLState :=
  match st.saved_exception with
  | some e => .error (e, { st with saved_exception := none })
  | none => .ok st

/-- One pass of the flush loop, with structural fuel: each iteration pops
one entry out of `received_chunks`, so the buffered-chunk count bounds the
iteration count and the fuel never runs out (see `flushChunksF_ok_post`). -/
def flushChunksF (cb : Option (List Nat → Option String)) :
    Nat → DLState → Except (SFTPErr × DLState) DLState
  | 0, st => .ok st
  | fuel + 1, st =>
    match rpop st.receivedSize st.received_chunks with
    | none => .ok st
    | some (ch, rest) =>
      match cb with
      | none =>
        flushChunksF none fuel { st with
          received_chunks := rest,
          output := st.output ++ ch.data,
          writeLog := st.writeLog ++ [(ch.offset, ch.data)],
          receivedSize := st.receivedSize + ch.size }
      | some c =>
        match c ch.data with
        | some msg =>
          .error (.callbackErr msg,
            { st with
              received_chunks := rest,
              output := st.output ++ ch.data,
              writeLog := st.writeLog ++ [(ch.offset, ch.data)],
              cbLog := st.cbLog ++ [ch.data] })
        | none =>
          flushChunksF (some c) fuel { st with
            received_chunks := rest,
            output := st.output ++ ch.data,
            writeLog := st.writeLog ++ [(ch.offset, ch.data)],
            cbLog := st.cbLog ++ [ch.data],
            receivedSize := st.receivedSize + ch.size }

/-- The flush loop of `download`: repeatedly pop the buffered chunk stored
exactly at key `received_size`; write its data to the output stream, invoke
the progress callback on the data if one is set (exceptions from the
callback propagate, aborting the transfer), and advance `received_size` by
the chunk size.  Stops as soon as no chunk is buffered at `received_size`. -/
def flushChunks (cb : Option (List Nat → Option String)) (st : DLState) :
    Except (SFTPErr × DLState) DLState :=
  flushChunksF cb st.received_chunks.length st

/-- Outcome of a download run: normal return from `download` (`done`), an
exception (`failed`), or the blocking receive waiting forever because no
further frame arrives on the connection (`blocked`). -/
inductive DLResult where
  | done (st : DLState) : DLResult
  | failed (e : SFTPErr) (st : DLState) : DLResult
  | blocked (st : DLState) : DLResult
  deriving DecidableEq, Repr

def DLResult.stateOf : DLResult → DLState
  | .done st => st
  | .failed _ st => st
  | .blocked st => st

def DLResult.errOf : DLResult → Option SFTPErr
  | .failed e _ => some e
  | _ => none

def DLResult.isDone : DLResult → Bool
  | .done _ => true
  | _ => false

/-- `true` exactly when the run ended in the deadlock-check `ValueError`. -/
def DLResult.isQueueFail : DLResult → Bool
  | .failed .queueError _ => true
  | _ => false

/-- The `while True` body of `download`, consuming one frame per blocking
receive.  Per iteration: refill the request window; block on
`sftp._read_response()` (if no frame ever arrives the transfer blocks
forever); dispatch it through `_async_response`; `_check_exception`; flush
contiguous chunks to the sink; return when `received_size >= file_size`;
raise `ValueError` if `requested_chunks` is empty while `received_chunks`
is at window capacity.  Also returns the list of states at the observation
points passed during the run (after refill, after dispatch, after flush). -/
def downloadLoop (cb : Option (List Nat → Option String)) :
    List Frame → DLState → List DLState × DLResult
  | frames, st =>
    let st1 := fillWindow st
    match frames with
    | [] => ([st1], .blocked st1)
    | f :: rest =>
      match async_response st1 f with
      | .error (e, st2) => ([st1], .failed e st2)
      | .ok st2 =>
        match check_exception st2 with
        | .error (e, st3) => ([st1, st2], .failed e st3)
        | .ok st3 =>
          match flushChunks cb st3 with
          | .error (e, st4) => ([st1, st2], .failed e st4)
          | .ok st4 =>
            if st4.fileSize ≤ st4.receivedSize then
              ([st1, st2, st4], .done st4)
            else if st4.requested_chunks = [] ∧
                DOWNLOAD_MAX_REQUESTS ≤ st4.received_chunks.length then
              ([st1, st2, st4], .failed .queueError st4)
            else
              let r := downloadLoop cb rest st4
              (st1 :: st2 :: st4 :: r.1, r.2)

/-- The state of `_SFTPFileDownloader` right after `__init__` and the
`file_size = self.f_in.stat().st_size` / `requested_size = 0` /
`received_size = 0` initialisation in `download`. -/
def initState (file : List Nat) : DLState :=
  { fileSize := file.length, requestedSize := 0, receivedSize := 0, nextId := 0,
    requested_chunks := [], received_chunks := [], saved_exception := none,
    output := [], issued := [], writeLog := [], cbLog := [] }

/-- `_SFTPFileDownloader(...).download()` on a remote file with byte content
`file`, where `frames` is the sequence of frames the connection delivers to
the blocking receives, in arrival order. -/
def download (cb : Option (List Nat → Option String)) (file : List Nat)
    (frames : List Frame) : DLResult :=
  (downloadLoop cb frames (initState file)).2

/-- All observation-point states of a run: the initial state followed by the
states logged by the loop. -/
def downloadStates (cb : Option (List Nat → Option String)) (file : List Nat)
    (frames : List Frame) : List DLState :=
  initState file :: (downloadLoop cb frames (initState file)).1

/-- The payload an honest server sends for the read request with correlation
id `n`: the requested slice of the remote file. -/
def respData (file : List Nat) (n : Nat) : List Nat :=
  (file.drop (n * DOWNLOAD_MAX_CHUNK_SIZE)).take
    (min DOWNLOAD_MAX_CHUNK_SIZE (file.length - n * DOWNLOAD_MAX_CHUNK_SIZE))

/-- The honest data frame answering request `n`. -/
def respond (file : List Nat) (n : Nat) : Frame :=
  .dataF n (respData file n)

/-- A frame is honest when any data payload it carries is the true content
of the remote file at the range belonging to its correlation id.  Status
frames, unknown ids, duplicates and arbitrary arrival orders are allowed. -/
def HonestF (file : List Nat) : Frame → Prop
  | .dataF num d => d = respData file num
  | _ => True

def Honest (file : List Nat) (frames : List Frame) : Prop :=
  ∀ f ∈ frames, HonestF file f

/-- The sink-write log is an unbroken ascending run starting at `k`: each
write happens at the offset equal to the committed size at that moment
(no gap, no duplicate, nonempty), strictly increasing. -/
def WriteChain : Nat → List (Nat × List Nat) → Prop
  | _, [] => True
  | k, e :: rest => e.1 = k ∧ e.2 ≠ [] ∧ WriteChain (e.1 + e.2.length) rest

/-- The offset one past the end of the write log, starting from `k`. -/
def logEnd : Nat → List (Nat × List Nat) → Nat
  | k, [] => k
  | _, e :: rest => logEnd (e.1 + e.2.length) rest

/-- The byte sequence of the write log, in write order. -/
def flattenLog : List (Nat × List Nat) → List Nat
  | [] => []
  | e :: rest => e.2 ++ flattenLog rest

/-- Total number of buffered, not-yet-flushed bytes. -/
def recvBytes (st : DLState) : Nat :=
  (st.received_chunks.map (fun ch => ch.data.length)).sum

/-- All byte intervals `(offset, size)` held by the session: pending
requests plus buffered chunks. -/
def ivs (st : DLState) : List (Nat × Nat) :=
  st.requested_chunks.map (fun p => p.2) ++
    st.received_chunks.map (fun ch => (ch.offset, ch.size))

/-- `covP x iv` : the interval `iv = (offset, size)` covers the byte
position `x`. -/
def covP (x : Nat) (iv : Nat × Nat) : Bool :=
  decide (iv.1 ≤ x ∧ x < iv.1 + iv.2)

/-- The intervals `l` exactly tile `[lo, hi)`: every interval is nonempty
and inside the range, and every point of the range is covered by exactly
one interval of the list. -/
structure Tiles (l : List (Nat × Nat)) (lo hi : Nat) : Prop where
  bounds : ∀ iv ∈ l, lo ≤ iv.1 ∧ iv.1 + iv.2 ≤ hi ∧ 1 ≤ iv.2
  cover : ∀ x, lo ≤ x → x < hi → l.countP (covP x) = 1

/-- Any exception saved for deferred raising is a converted status error:
`saved_exception` is only ever written by the `CMD_STATUS` branch of
`_async_response`. -/
def SavedOK (st : DLState) : Prop :=
  ∀ e, st.saved_exception = some e → ∃ msg, e = SFTPErr.statusErr msg

/-- Structural invariant of the downloader, independent of what the server
sends.  It ties the session counters to the chunking grid (requests are
issued back to back in `DOWNLOAD_MAX_CHUNK_SIZE` steps, so correlation id
`n` always requests `[n*C, n*C + min C (fileSize - n*C))`), states that the
outstanding intervals exactly tile the gap between committed and requested
bytes, and bounds the window. -/
structure InvS (st : DLState) : Prop where
  rle : st.receivedSize ≤ st.requestedSize
  qle : st.requestedSize ≤ st.fileSize
  align : st.requestedSize = min (st.nextId * DOWNLOAD_MAX_CHUNK_SIZE) st.fileSize
  pends : ∀ p ∈ st.requested_chunks,
    p.1 < st.nextId ∧ p.2.1 = p.1 * DOWNLOAD_MAX_CHUNK_SIZE ∧
      p.2.2 = min DOWNLOAD_MAX_CHUNK_SIZE (st.fileSize - p.2.1)
  pnd : st.requested_chunks.Pairwise (fun a b => a.1 ≠ b.1)
  rsz : ∀ ch ∈ st.received_chunks,
    ch.data.length = ch.size ∧ ch.size ≤ DOWNLOAD_MAX_CHUNK_SIZE
  til : Tiles (ivs st) st.receivedSize st.requestedSize
  win : st.requested_chunks.length + st.received_chunks.length ≤ DOWNLOAD_MAX_REQUESTS
  olen : st.output.length = st.receivedSize
  iss : st.issued = (List.range st.nextId).map
    (fun n => (n * DOWNLOAD_MAX_CHUNK_SIZE,
      min DOWNLOAD_MAX_CHUNK_SIZE (st.fileSize - n * DOWNLOAD_MAX_CHUNK_SIZE)))
  wch : WriteChain 0 st.writeLog
  wend : logEnd 0 st.writeLog = st.receivedSize
  wflat : flattenLog st.writeLog = st.output
  sav : SavedOK st

/-- Data invariant relative to the remote file: buffered chunks hold the
true file bytes at their offset and the sink content is exactly the
committed prefix of the file.  Preserved whenever the consumed frames are
honest. -/
structure InvD (file : List Nat) (st : DLState) extends InvS st : Prop where
  fsEq : st.fileSize = file.length
  rdata : ∀ ch ∈ st.received_chunks, ch.data = (file.drop ch.offset).take ch.size
  otake : st.output = file.take st.receivedSize

/-- Operations `upload_file` performs on the sftp client, in order. -/
inductive SftpOp where
  | mkdirOp (path : List Char) : SftpOp
  | chdirOp (path : List Char) : SftpOp
  | putOp (localPath : List Char) (remotePath : List Char) : SftpOp
  deriving DecidableEq, Repr

/-- Python `str.split('/')` on a path modelled as a character list:
always returns at least one (possibly empty) part. -/
def splitSlash : List Char → List (List Char)
  | [] => [[]]
  | c :: rest =>
    let r := splitSlash rest
    if c = '/' then [] :: r
    else
      match r with
      | h :: t => (c :: h) :: t
      | [] => [[c]]

/-- Python `'/'.join`. -/
def joinSlash : List (List Char) → List Char
  | [] => []
  | [p] => p
  | p :: rest => p ++ '/' :: joinSlash rest

/-- `upload_file(sftp_client, remote_path, local_path)`: splits the remote
path on `'/'`; if it has more than one part, unconditionally calls
`sftp_client.mkdir` on the joined parent directory (paramiko's `mkdir`
raises `IOError` when the directory already exists — modelled by
`dirExists`), then `chdir` and `put`; otherwise just `put`.  Returns the
operations invoked, in order, and the error if one was raised. -/
def upload_file (dirExists : List Char → Bool) (remote_path local_path : List Char) :
    List SftpOp × Option String :=
  let split_path := splitSlash remote_path
  if 1 < split_path.length then
    let remote_directory := joinSlash (split_path.take (split_path.length - 1))
    if dirExists remote_directory then
      ([SftpOp.mkdirOp remote_directory], some "IOError")
    else
      ([SftpOp.mkdirOp remote_directory, SftpOp.chdirOp remote_directory,
        SftpOp.putOp local_path (joinSlash (split_path.drop (split_path.length - 1)))],
        none)
  else
    ([SftpOp.putOp local_path remote_path], none)

/-- A progress callback that always raises. -/
def boomCb : List Nat → Option String := fun _ => some "boom"

/-- A mid-transfer session of a 200-byte file with one pending request of
size 200 under correlation id 0 (used to exercise the size-mismatch path
on concrete inputs). -/
def st200 : DLState :=
  { fileSize := 200, requestedSize := 200, receivedSize := 0, nextId := 1,
    requested_chunks := [(0, 0, 200)], received_chunks := [],
    saved_exception := none, output := [], issued := [(0, 200)],
    writeLog := [], cbLog := [] }

/-- A mid-transfer session of a 1-byte file whose only chunk has arrived
and is buffered, ready to flush (used to exercise the callback path on
concrete inputs). -/
def flushSt : DLState :=
  { fileSize := 1, requestedSize := 1, receivedSize := 0, nextId := 1,
    requested_chunks := [], received_chunks := [⟨0, 1, [7]⟩],
    saved_exception := none, output := [], issued := [(0, 1)],
    writeLog := [], cbLog := [] }

/-- The state in which `flushSt`'s flush aborts when the callback raises:
the chunk is already written to the sink, the callback was invoked on its
data, but `received_size` has not advanced. -/
def flushStErr : DLState :=
  { flushSt with
    received_chunks := [],
    output := [7],
    writeLog := [(0, [7])],
    cbLog := [[7]] }

/-- The session state right after the first request-window fill of a
100000-byte download: four read requests issued back to back, of sizes
32768, 32768, 32768 and 1696. -/
def fw100 : DLState :=
  { fileSize := 100000, requestedSize := 100000, receivedSize := 0, nextId := 4,
    requested_chunks := [(0, 0, 32768), (1, 32768, 32768), (2, 65536, 32768),
      (3, 98304, 1696)],
    received_chunks := [], saved_exception := none, output := [],
    issued := [(0, 32768), (32768, 32768), (65536, 32768), (98304, 1696)],
    writeLog := [], cbLog := [] }

/-! ### Association-list helper lemmas -/

theorem plookup_mem {k : Nat} {v : Nat × Nat} :
    ∀ {l : List (Nat × Nat × Nat)}, plookup k l = some v → (k, v) ∈ l := by
  intro l
  induction l with
  | nil => intro h; simp [plookup] at h
  | cons p rest ih =>
    intro h
    simp only [plookup] at h
    split at h
    · cases h
      rename_i hp
      subst hp
      simp
    · right
      exact ih h

theorem plookup_of_mem {k : Nat} {v : Nat × Nat} :
    ∀ {l : List (Nat × Nat × Nat)}, (k, v) ∈ l →
      l.Pairwise (fun a b => a.1 ≠ b.1) → plookup k l = some v := by
  intro l
  induction l with
  | nil => intro h; simp at h
  | cons p rest ih =>
    intro hmem hpw
    rcases List.mem_cons.mp hmem with h | h
    · subst h
      simp [plookup]
    · have hpw' := (List.pairwise_cons.mp hpw)
      have hne : p.1 ≠ k := hpw'.1 _ h
      simp only [plookup, if_neg hne]
      exact ih h hpw'.2

theorem perase_sublist {k : Nat} :
    ∀ l : List (Nat × Nat × Nat), (perase k l).Sublist l := by
  intro l
  induction l with
  | nil => simp [perase]
  | cons p rest ih =>
    simp only [perase]
    split
    · exact (List.sublist_cons_self p rest)
    · exact List.Sublist.cons₂ p ih

theorem perm_perase {k : Nat} {v : Nat × Nat} :
    ∀ {l : List (Nat × Nat × Nat)}, (k, v) ∈ l →
      l.Pairwise (fun a b => a.1 ≠ b.1) → l.Perm ((k, v) :: perase k l) := by
  intro l
  induction l with
  | nil => intro h; simp at h
  | cons p rest ih =>
    intro hmem hpw
    rcases List.mem_cons.mp hmem with h | h
    · subst h
      simp [perase]
    · have hpw' := List.pairwise_cons.mp hpw
      have hne : p.1 ≠ k := hpw'.1 _ h
      simp only [perase, if_neg hne]
      exact ((ih h hpw'.2).cons p).trans (List.Perm.swap _ _ _)

theorem rinsert_eq_append {ch : RecvChunk} :
    ∀ {l : List RecvChunk}, (∀ c ∈ l, c.offset ≠ ch.offset) →
      rinsert ch l = l ++ [ch] := by
  intro l
  induction l with
  | nil => intro; simp [rinsert]
  | cons c rest ih =>
    intro h
    have hc : c.offset ≠ ch.offset := h c (by simp)
    simp only [rinsert, if_neg hc, List.cons_append, List.cons.injEq, true_and]
    exact ih (fun c' hc' => h c' (by simp [hc']))

theorem rpop_none_iff {k : Nat} :
    ∀ {l : List RecvChunk}, rpop k l = none ↔ ∀ c ∈ l, c.offset ≠ k := by
  intro l
  induction l with
  | nil => simp [rpop]
  | cons c rest ih =>
    simp only [rpop]
    split
    · rename_i hc
      constructor
      · intro h; cases h
      · intro h; exact absurd hc (h c (by simp))
    · rename_i hc
      constructor
      · intro h
        cases hr : rpop k rest with
        | none =>
          intro c' hc'
          rcases List.mem_cons.mp hc' with rfl | hm
          · exact hc
          · exact (ih.mp hr) c' hm
        | some p => rw [hr] at h; cases h
      · intro h
        cases hr : rpop k rest with
        | none => rfl
        | some p =>
          exfalso
          have := ih.mpr (fun c' hc' => h c' (by simp [hc']))
          rw [this] at hr
          cases hr

theorem rpop_some {k : Nat} : ∀ {l : List RecvChunk} {c : RecvChunk}
    {rest : List RecvChunk}, rpop k l = some (c, rest) →
      c.offset = k ∧ l.Perm (c :: rest) := by
  intro l
  induction l with
  | nil => intro c rest h; simp [rpop] at h
  | cons a l ih =>
    intro c rest h
    simp only [rpop] at h
    split at h
    · cases h
      rename_i ha
      exact ⟨ha, List.Perm.refl _⟩
    · cases hr : rpop k l with
      | none => rw [hr] at h; cases h
      | some p =>
        rw [hr] at h
        cases h
        obtain ⟨h1, h2⟩ := ih hr
        exact ⟨h1, ((h2.cons a).trans (List.Perm.swap _ _ _))⟩

theorem rpop_length {k : Nat} {l : List RecvChunk} {c : RecvChunk}
    {rest : List RecvChunk} (h : rpop k l = some (c, rest)) :
    rest.length < l.length := by
  have := (rpop_some h).2.length_eq
  simp at this
  omega

/-! ### Write-log helper lemmas -/

theorem logEnd_append : ∀ (l1 l2 : List (Nat × List Nat)) (k : Nat),
    logEnd k (l1 ++ l2) = logEnd (logEnd k l1) l2 := by
  intro l1
  induction l1 with
  | nil => intro l2 k; rfl
  | cons e rest ih =>
    intro l2 k
    simp only [List.cons_append, logEnd]
    exact ih l2 _

theorem writeChain_append_one : ∀ {l : List (Nat × List Nat)} {k m : Nat}
    {d : List Nat}, WriteChain k l → logEnd k l = m → d ≠ [] →
    WriteChain k (l ++ [(m, d)]) := by
  intro l
  induction l with
  | nil =>
    intro k m d _ hend hd
    cases hend
    exact ⟨rfl, hd, trivial⟩
  | cons e rest ih =>
    intro k m d hch hend hd
    obtain ⟨h1, h2, h3⟩ := hch
    exact ⟨h1, h2, ih h3 hend hd⟩

theorem flattenLog_append : ∀ (l1 l2 : List (Nat × List Nat)),
    flattenLog (l1 ++ l2) = flattenLog l1 ++ flattenLog l2 := by
  intro l1
  induction l1 with
  | nil => intro l2; rfl
  | cons e rest ih =>
    intro l2
    simp only [List.cons_append, flattenLog, List.append_assoc]
    exact congrArg _ (ih l2)

theorem sum_map_le {l : List RecvChunk} (C : Nat)
    (h : ∀ ch ∈ l, ch.data.length ≤ C) :
    (l.map (fun ch => ch.data.length)).sum ≤ l.length * C := by
  induction l with
  | nil => simp
  | cons c rest ih =>
    simp only [List.map_cons, List.sum_cons, List.length_cons]
    have h1 : c.data.length ≤ C := h c (by simp)
    have h2 := ih (fun ch hch => h ch (by simp [hch]))
    calc c.data.length + (rest.map (fun ch => ch.data.length)).sum
        ≤ C + rest.length * C := Nat.add_le_add h1 h2
      _ = (rest.length + 1) * C := by ring

/-! ### Tiling lemmas -/

theorem Tiles.perm {l1 l2 : List (Nat × Nat)} {lo hi : Nat}
    (hp : l1.Perm l2) (ht : Tiles l1 lo hi) : Tiles l2 lo hi :=
  ⟨fun iv hiv => ht.bounds iv (hp.symm.subset hiv),
   fun x h1 h2 => (hp.countP_eq (covP x)).symm.trans (ht.cover x h1 h2)⟩

theorem covP_true {x : Nat} {iv : Nat × Nat} (h1 : iv.1 ≤ x) (h2 : x < iv.1 + iv.2) :
    covP x iv = true := by
  simp [covP]
  exact ⟨h1, h2⟩

theorem covP_false {x : Nat} {iv : Nat × Nat} (h : iv.1 + iv.2 ≤ x ∨ x < iv.1) :
    covP x iv = false := by
  simp [covP]
  intro h1
  omega

theorem countP_cons_true {α : Type} {p : α → Bool} {a : α} {l : List α}
    (h : p a = true) : (a :: l).countP p = l.countP p + 1 := by
  rw [List.countP_cons, h]
  simp

theorem countP_cons_false {α : Type} {p : α → Bool} {a : α} {l : List α}
    (h : p a = false) : (a :: l).countP p = l.countP p := by
  rw [List.countP_cons, h]
  simp

/-! ### `fillWindow` lemmas -/

theorem fillWindowF_const : ∀ (fuel : Nat) (st : DLState),
    (fillWindowF fuel st).fileSize = st.fileSize ∧
    (fillWindowF fuel st).receivedSize = st.receivedSize ∧
    (fillWindowF fuel st).received_chunks = st.received_chunks ∧
    (fillWindowF fuel st).saved_exception = st.saved_exception ∧
    (fillWindowF fuel st).output = st.output ∧
    (fillWindowF fuel st).writeLog = st.writeLog ∧
    (fillWindowF fuel st).cbLog = st.cbLog := by
  intro fuel
  induction fuel with
  | zero => intro st; exact ⟨rfl, rfl, rfl, rfl, rfl, rfl, rfl⟩
  | succ fuel ih =>
    intro st
    simp only [fillWindowF]
    split
    · exact ih _
    · exact ⟨rfl, rfl, rfl, rfl, rfl, rfl, rfl⟩

theorem fillWindow_step_invS {st : DLState} (inv : InvS st)
    (hwin : st.requested_chunks.length + st.received_chunks.length < DOWNLOAD_MAX_REQUESTS)
    (hlt : st.requestedSize < st.fileSize) :
    InvS { st with
      requested_chunks :=
        st.requested_chunks ++
          [(st.nextId, st.requestedSize,
            min DOWNLOAD_MAX_CHUNK_SIZE (st.fileSize - st.requestedSize))],
      issued :=
        st.issued ++
          [(st.requestedSize, min DOWNLOAD_MAX_CHUNK_SIZE (st.fileSize - st.requestedSize))],
      nextId := st.nextId + 1,
      requestedSize :=
        st.requestedSize + min DOWNLOAD_MAX_CHUNK_SIZE (st.fileSize - st.requestedSize) } := by
  have hC : 0 < DOWNLOAD_MAX_CHUNK_SIZE := by decide
  have hm1 : 1 ≤ min DOWNLOAD_MAX_CHUNK_SIZE (st.fileSize - st.requestedSize) :=
    Nat.lt_min.mpr ⟨hC, by omega⟩
  have hm2 : min DOWNLOAD_MAX_CHUNK_SIZE (st.fileSize - st.requestedSize) ≤
      st.fileSize - st.requestedSize := Nat.min_le_right _ _
  have halign := inv.align
  have hreq : st.requestedSize = st.nextId * DOWNLOAD_MAX_CHUNK_SIZE := by
    rw [Nat.min_def] at halign
    split at halign
    · exact halign
    · omega
  constructor
  case rle =>
    show st.receivedSize ≤
      st.requestedSize + min DOWNLOAD_MAX_CHUNK_SIZE (st.fileSize - st.requestedSize)
    have := inv.rle
    omega
  case qle =>
    show st.requestedSize + min DOWNLOAD_MAX_CHUNK_SIZE (st.fileSize - st.requestedSize) ≤
      st.fileSize
    omega
  case align =>
    show st.requestedSize + min DOWNLOAD_MAX_CHUNK_SIZE (st.fileSize - st.requestedSize) =
      min ((st.nextId + 1) * DOWNLOAD_MAX_CHUNK_SIZE) st.fileSize
    rw [Nat.succ_mul, ← hreq]
    rcases Nat.le_total DOWNLOAD_MAX_CHUNK_SIZE (st.fileSize - st.requestedSize) with h | h
    · rw [Nat.min_eq_left h, Nat.min_eq_left (by omega)]
    · rw [Nat.min_eq_right h, Nat.min_eq_right (by omega)]
      omega
  case pends =>
    intro p hp
    show p.1 < st.nextId + 1 ∧ p.2.1 = p.1 * DOWNLOAD_MAX_CHUNK_SIZE ∧
      p.2.2 = min DOWNLOAD_MAX_CHUNK_SIZE (st.fileSize - p.2.1)
    rcases List.mem_append.mp hp with h | h
    · obtain ⟨h1, h2, h3⟩ := inv.pends p h
      exact ⟨by omega, h2, h3⟩
    · have heq : p = (st.nextId, st.requestedSize,
          min DOWNLOAD_MAX_CHUNK_SIZE (st.fileSize - st.requestedSize)) := by
        simpa using h
      subst heq
      exact ⟨by omega, hreq, rfl⟩
  case pnd =>
    show List.Pairwise _ (st.requested_chunks ++ [_])
    rw [List.pairwise_append]
    refine ⟨inv.pnd, by simp, ?_⟩
    intro a ha b hb
    have hb' : b = (st.nextId, st.requestedSize,
        min DOWNLOAD_MAX_CHUNK_SIZE (st.fileSize - st.requestedSize)) := by
      simpa using hb
    subst hb'
    have := (inv.pends a ha).1
    show a.1 ≠ st.nextId
    omega
  case rsz =>
    intro ch hch
    exact inv.rsz ch hch
  case til =>
    have hperm : ((st.requested_chunks ++
        [(st.nextId, st.requestedSize,
          min DOWNLOAD_MAX_CHUNK_SIZE (st.fileSize - st.requestedSize))]).map (fun p => p.2) ++
        st.received_chunks.map (fun ch => (ch.offset, ch.size))).Perm
        (ivs st ++
          [(st.requestedSize, min DOWNLOAD_MAX_CHUNK_SIZE (st.fileSize - st.requestedSize))]) := by
      simp only [ivs, List.map_append, List.map_cons, List.map_nil, List.append_assoc]
      exact List.Perm.append_left _ List.perm_append_comm
    constructor
    · intro iv hiv
      show st.receivedSize ≤ iv.1 ∧
        iv.1 + iv.2 ≤ st.requestedSize +
          min DOWNLOAD_MAX_CHUNK_SIZE (st.fileSize - st.requestedSize) ∧ 1 ≤ iv.2
      have hiv' : iv ∈ ivs st ++
          [(st.requestedSize, min DOWNLOAD_MAX_CHUNK_SIZE (st.fileSize - st.requestedSize))] :=
        hperm.subset hiv
      rcases List.mem_append.mp hiv' with h | h
      · have := inv.til.bounds iv h
        exact ⟨this.1, by omega, this.2.2⟩
      · have heq : iv = (st.requestedSize,
            min DOWNLOAD_MAX_CHUNK_SIZE (st.fileSize - st.requestedSize)) := by
          simpa using h
        subst heq
        exact ⟨inv.rle, by omega, hm1⟩
    · intro x hx1 hx2
      show (((st.requested_chunks ++ _).map _) ++ _).countP (covP x) = 1
      rw [hperm.countP_eq, List.countP_append]
      replace hx1 : st.receivedSize ≤ x := hx1
      replace hx2 : x < st.requestedSize +
        min DOWNLOAD_MAX_CHUNK_SIZE (st.fileSize - st.requestedSize) := hx2
      by_cases hx : x < st.requestedSize
      · rw [inv.til.cover x hx1 hx]
        have hcf : covP x (st.requestedSize,
            min DOWNLOAD_MAX_CHUNK_SIZE (st.fileSize - st.requestedSize)) = false :=
          covP_false (Or.inr (by omega))
        simp [List.countP_cons, hcf]
      · have h0 : (ivs st).countP (covP x) = 0 := by
          rw [List.countP_eq_zero]
          intro iv hiv
          have hb := inv.til.bounds iv hiv
          have hcf : covP x iv = false := covP_false (Or.inl (by omega))
          simp [hcf]
        rw [h0]
        have hct : covP x (st.requestedSize,
            min DOWNLOAD_MAX_CHUNK_SIZE (st.fileSize - st.requestedSize)) = true :=
          covP_true (by omega) (by omega)
        simp [List.countP_cons, hct]
  case win =>
    show (st.requested_chunks ++ [_]).length + st.received_chunks.length ≤ DOWNLOAD_MAX_REQUESTS
    rw [List.length_append]
    simp only [List.length_cons, List.length_nil]
    omega
  case olen => exact inv.olen
  case iss =>
    show st.issued ++ [_] = (List.range (st.nextId + 1)).map _
    rw [List.range_succ, List.map_append, inv.iss]
    simp only [List.map_cons, List.map_nil]
    rw [← hreq]
  case wch => exact inv.wch
  case wend => exact inv.wend
  case wflat => exact inv.wflat
  case sav => exact inv.sav

theorem fillWindowF_invS : ∀ (fuel : Nat) {st : DLState}, InvS st →
    InvS (fillWindowF fuel st) := by
  intro fuel
  induction fuel with
  | zero => intro st inv; exact inv
  | succ fuel ih =>
    intro st inv
    simp only [fillWindowF]
    split
    · rename_i h
      exact ih (fillWindow_step_invS inv h.1 h.2)
    · exact inv

theorem fillWindow_invS {st : DLState} (inv : InvS st) : InvS (fillWindow st) :=
  fillWindowF_invS _ inv

theorem fillWindow_invD {file : List Nat} {st : DLState} (inv : InvD file st) :
    InvD file (fillWindow st) := by
  obtain ⟨h1, h2, h3, h4, h5, h6, h7⟩ := fillWindowF_const (st.fileSize - st.requestedSize) st
  exact { toInvS := fillWindow_invS inv.toInvS,
          fsEq := by rw [fillWindow]; rw [h1]; exact inv.fsEq,
          rdata := by rw [fillWindow]; rw [h3]; exact inv.rdata,
          otake := by rw [fillWindow]; rw [h5, h2]; exact inv.otake }

theorem fillWindow_of_full {st : DLState} (h : st.fileSize ≤ st.requestedSize) :
    fillWindow st = st := by
  unfold fillWindow
  rw [Nat.sub_eq_zero_of_le h]
  rfl

/-! ### `async_response` lemmas -/

theorem pend_recv_disjoint {st : DLState} (inv : InvS st) {num off sz : Nat}
    (hmem : (num, off, sz) ∈ st.requested_chunks) :
    ∀ ch ∈ st.received_chunks, ch.offset ≠ off := by
  intro ch hch hoff
  have hmem1 : (off, sz) ∈ ivs st :=
    List.mem_append_left _ (List.mem_map.mpr ⟨(num, off, sz), hmem, rfl⟩)
  have hmem2 : (ch.offset, ch.size) ∈ ivs st :=
    List.mem_append_right _ (List.mem_map.mpr ⟨ch, hch, rfl⟩)
  have hb1 := inv.til.bounds _ hmem1
  have hb2 := inv.til.bounds _ hmem2
  have hx1 : st.receivedSize ≤ off := hb1.1
  have hx2 : off < st.requestedSize := by
    have := hb1.2.1
    have := hb1.2.2
    simp at this ⊢
    omega
  have hcov := inv.til.cover off hx1 hx2
  rw [ivs, List.countP_append] at hcov
  have c1 : 0 < (st.requested_chunks.map (fun p => p.2)).countP (covP off) := by
    refine List.countP_pos_iff.mpr ⟨(off, sz), List.mem_map.mpr ⟨(num, off, sz), hmem, rfl⟩, ?_⟩
    have := hb1.2.2
    exact covP_true (Nat.le_refl _) (by simp at this ⊢; omega)
  have c2 : 0 < (st.received_chunks.map (fun ch => (ch.offset, ch.size))).countP (covP off) := by
    refine List.countP_pos_iff.mpr ⟨(ch.offset, ch.size), List.mem_map.mpr ⟨ch, hch, rfl⟩, ?_⟩
    have := hb2.2.2
    exact covP_true (by simp; omega) (by simp at this ⊢; omega)
  omega

theorem async_ok_invS {st st' : DLState} {f : Frame} (inv : InvS st)
    (h : async_response st f = .ok st') :
    InvS st' ∧ st'.fileSize = st.fileSize ∧ st'.requestedSize = st.requestedSize ∧
      st'.receivedSize = st.receivedSize ∧ st'.output = st.output ∧
      st'.nextId = st.nextId ∧ st'.issued = st.issued ∧ st'.writeLog = st.writeLog := by
  cases f with
  | otherF => simp [async_response] at h
  | statusF num err =>
    cases err with
    | none =>
      simp only [async_response] at h
      injection h with h
      subst h
      exact ⟨inv, rfl, rfl, rfl, rfl, rfl, rfl, rfl⟩
    | some msg =>
      simp only [async_response] at h
      injection h with h
      subst h
      refine ⟨⟨inv.rle, inv.qle, inv.align, inv.pends, inv.pnd, inv.rsz, inv.til, inv.win,
        inv.olen, inv.iss, inv.wch, inv.wend, inv.wflat, ?_⟩,
        rfl, rfl, rfl, rfl, rfl, rfl, rfl⟩
      intro e he
      have : SFTPErr.statusErr msg = e := by injection he
      exact ⟨msg, this.symm⟩
  | dataF num d =>
    cases hl : plookup num st.requested_chunks with
    | none =>
      simp only [async_response, hl] at h
      injection h with h
      subst h
      exact ⟨inv, rfl, rfl, rfl, rfl, rfl, rfl, rfl⟩
    | some v =>
      obtain ⟨off, sz⟩ := v
      simp only [async_response, hl] at h
      split at h
      · exact absurd h (by simp)
      · rename_i hsz
        injection h with h
        subst h
        have hszd : sz = d.length := by omega
        have hmem : (num, off, sz) ∈ st.requested_chunks := plookup_mem hl
        obtain ⟨hnum, hoff, hszm⟩ := inv.pends _ hmem
        have hszm' : sz = min DOWNLOAD_MAX_CHUNK_SIZE (st.fileSize - off) := hszm
        have hdisj := pend_recv_disjoint inv hmem
        have hins : rinsert ⟨off, sz, d⟩ st.received_chunks =
            st.received_chunks ++ [⟨off, sz, d⟩] :=
          rinsert_eq_append (fun c hc => hdisj c hc)
        have hperm_p : st.requested_chunks.Perm
            ((num, off, sz) :: perase num st.requested_chunks) :=
          perm_perase hmem inv.pnd
        have hlen_p : st.requested_chunks.length =
            (perase num st.requested_chunks).length + 1 := by
          have := hperm_p.length_eq
          simpa using this
        rw [hins]
        refine ⟨?_, rfl, rfl, rfl, rfl, rfl, rfl, rfl⟩
        have h1 : (st.requested_chunks.map (fun p => p.2)).Perm
            ((off, sz) :: (perase num st.requested_chunks).map (fun p => p.2)) := by
          simpa using hperm_p.map (fun p => p.2)
        have hperm_t : (ivs st).Perm
            ((perase num st.requested_chunks).map (fun p => p.2) ++
              (st.received_chunks.map (fun ch => (ch.offset, ch.size)) ++ [(off, sz)])) := by
          refine List.Perm.trans (h1.append_right _) ?_
          refine List.Perm.trans List.perm_middle.symm ?_
          refine List.Perm.append_left _ ?_
          exact (List.perm_append_singleton _ _).symm
        constructor
        case rle => exact inv.rle
        case qle => exact inv.qle
        case align => exact inv.align
        case pends =>
          intro p hp
          exact inv.pends p ((perase_sublist _).subset hp)
        case pnd => exact List.Pairwise.sublist (perase_sublist _) inv.pnd
        case rsz =>
          intro ch hch
          rcases List.mem_append.mp hch with hh | hh
          · exact inv.rsz ch hh
          · have : ch = ⟨off, sz, d⟩ := by simpa using hh
            subst this
            refine ⟨hszd.symm, ?_⟩
            show sz ≤ DOWNLOAD_MAX_CHUNK_SIZE
            rw [hszm']
            exact Nat.min_le_left _ _
        case til =>
          show Tiles ((perase num st.requested_chunks).map (fun p => p.2) ++
            (st.received_chunks ++ [(⟨off, sz, d⟩ : RecvChunk)]).map
              (fun ch : RecvChunk => (ch.offset, ch.size)))
            st.receivedSize st.requestedSize
          rw [List.map_append]
          exact Tiles.perm hperm_t inv.til
        case win =>
          show (perase num st.requested_chunks).length +
            (st.received_chunks ++ [_]).length ≤ DOWNLOAD_MAX_REQUESTS
          rw [List.length_append]
          have := inv.win
          simp only [List.length_cons, List.length_nil]
          omega
        case olen => exact inv.olen
        case iss => exact inv.iss
        case wch => exact inv.wch
        case wend => exact inv.wend
        case wflat => exact inv.wflat
        case sav => exact inv.sav

theorem async_ok_invD {file : List Nat} {st st' : DLState} {f : Frame}
    (inv : InvD file st) (hf : HonestF file f)
    (h : async_response st f = .ok st') : InvD file st' := by
  obtain ⟨hS, h1, h2, h3, h4, h5, h6, h7⟩ := async_ok_invS inv.toInvS h
  have hfsEq : st'.fileSize = file.length := h1.trans inv.fsEq
  have hotake : st'.output = file.take st'.receivedSize := by
    rw [h4, h3]
    exact inv.otake
  have hrdata : ∀ ch ∈ st'.received_chunks,
      ch.data = (file.drop ch.offset).take ch.size := by
    cases f with
    | otherF => simp [async_response] at h
    | statusF num err =>
      cases err with
      | none =>
        simp only [async_response] at h
        injection h with h
        subst h
        exact inv.rdata
      | some msg =>
        simp only [async_response] at h
        injection h with h
        subst h
        exact inv.rdata
    | dataF num d =>
      cases hl : plookup num st.requested_chunks with
      | none =>
        simp only [async_response, hl] at h
        injection h with h
        subst h
        exact inv.rdata
      | some v =>
        obtain ⟨off, sz⟩ := v
        simp only [async_response, hl] at h
        split at h
        · exact absurd h (by simp)
        · rename_i hsz
          injection h with h
          subst h
          have hmem : (num, off, sz) ∈ st.requested_chunks := plookup_mem hl
          obtain ⟨hnum, hoff, hszm⟩ := inv.pends _ hmem
          have hoff' : off = num * DOWNLOAD_MAX_CHUNK_SIZE := hoff
          have hszm' : sz = min DOWNLOAD_MAX_CHUNK_SIZE (st.fileSize - off) := hszm
          have hdisj := pend_recv_disjoint inv.toInvS hmem
          have hins : rinsert ⟨off, sz, d⟩ st.received_chunks =
              st.received_chunks ++ [⟨off, sz, d⟩] :=
            rinsert_eq_append (fun c hc => hdisj c hc)
          intro ch hch
          have hch' : ch ∈ rinsert ⟨off, sz, d⟩ st.received_chunks := hch
          rw [hins] at hch'
          rcases List.mem_append.mp hch' with hh | hh
          · exact inv.rdata ch hh
          · have hcheq : ch = ⟨off, sz, d⟩ := by simpa using hh
            subst hcheq
            show d = (file.drop off).take sz
            have hfd : d = respData file num := hf
            rw [hfd]
            simp only [respData]
            rw [← hoff', ← inv.fsEq, ← hszm']
  exact { toInvS := hS, fsEq := hfsEq, rdata := hrdata, otake := hotake }

/-! ### `check_exception` lemmas -/

theorem check_ok {st st' : DLState} (h : check_exception st = .ok st') :
    st' = st ∧ st.saved_exception = none := by
  cases hs : st.saved_exception with
  | none =>
    simp only [check_exception, hs] at h
    injection h with h
    exact ⟨h.symm, rfl⟩
  | some e =>
    simp only [check_exception, hs] at h
    exact absurd h (by simp)

/-! ### Flush-loop lemmas -/

theorem flush_step_invS {st : DLState} (inv : InvS st) {ch : RecvChunk}
    {rest : List RecvChunk} (h : rpop st.receivedSize st.received_chunks = some (ch, rest))
    (newCbLog : List (List Nat)) :
    InvS { st with
      received_chunks := rest,
      output := st.output ++ ch.data,
      writeLog := st.writeLog ++ [(ch.offset, ch.data)],
      cbLog := newCbLog,
      receivedSize := st.receivedSize + ch.size } := by
  obtain ⟨hchoff, hperm_r⟩ := rpop_some h
  have hchmem : ch ∈ st.received_chunks := hperm_r.symm.subset (List.mem_cons_self _ _)
  obtain ⟨hlen, hle⟩ := inv.rsz ch hchmem
  have hivmem : (ch.offset, ch.size) ∈ ivs st :=
    List.mem_append_right _ (List.mem_map.mpr ⟨ch, hchmem, rfl⟩)
  have hbd := inv.til.bounds _ hivmem
  have hsz1 : 1 ≤ ch.size := hbd.2.2
  have hend : ch.offset + ch.size ≤ st.requestedSize := hbd.2.1
  have hperm_iv : (ivs st).Perm ((ch.offset, ch.size) ::
      (st.requested_chunks.map (fun p => p.2) ++
        rest.map (fun c => (c.offset, c.size)))) := by
    refine List.Perm.trans (List.Perm.append_left _ (hperm_r.map _)) ?_
    exact List.perm_middle
  have hdne : ch.data ≠ [] := by
    intro hnil
    rw [hnil] at hlen
    simp at hlen
    omega
  constructor
  case rle =>
    show st.receivedSize + ch.size ≤ st.requestedSize
    omega
  case qle => exact inv.qle
  case align => exact inv.align
  case pends => exact inv.pends
  case pnd => exact inv.pnd
  case rsz =>
    intro c hc
    exact inv.rsz c (hperm_r.symm.subset (List.mem_cons_of_mem _ hc))
  case til =>
    constructor
    · intro iv hiv
      show st.receivedSize + ch.size ≤ iv.1 ∧ iv.1 + iv.2 ≤ st.requestedSize ∧ 1 ≤ iv.2
      have hiv' : iv ∈ ivs st := hperm_iv.symm.subset (List.mem_cons_of_mem _ hiv)
      have hb := inv.til.bounds _ hiv'
      refine ⟨?_, hb.2.1, hb.2.2⟩
      by_contra hlt
      push_neg at hlt
      have hx1 : st.receivedSize ≤ iv.1 := hb.1
      have hx2 : iv.1 < st.requestedSize := by
        have := hb.2.1
        have := hb.2.2
        omega
      have hcov := inv.til.cover iv.1 hx1 hx2
      have hcc : covP iv.1 (ch.offset, ch.size) = true :=
        covP_true (by simp; omega) (by simp; omega)
      rw [hperm_iv.countP_eq, countP_cons_true hcc] at hcov
      have hpos : 0 < (st.requested_chunks.map (fun p => p.2) ++
          rest.map (fun c => (c.offset, c.size))).countP (covP iv.1) :=
        List.countP_pos_iff.mpr ⟨iv, hiv, covP_true (Nat.le_refl _) (by omega)⟩
      omega
    · intro x hx1 hx2
      replace hx1 : st.receivedSize + ch.size ≤ x := hx1
      replace hx2 : x < st.requestedSize := hx2
      have hcov := inv.til.cover x (by omega) hx2
      have hcc : covP x (ch.offset, ch.size) = false :=
        covP_false (Or.inl (by simp; omega))
      rw [hperm_iv.countP_eq, countP_cons_false hcc] at hcov
      exact hcov
  case win =>
    show st.requested_chunks.length + rest.length ≤ DOWNLOAD_MAX_REQUESTS
    have := inv.win
    have := hperm_r.length_eq
    simp at this
    omega
  case olen =>
    show (st.output ++ ch.data).length = st.receivedSize + ch.size
    rw [List.length_append, inv.olen, hlen]
  case iss => exact inv.iss
  case wch =>
    show WriteChain 0 (st.writeLog ++ [(ch.offset, ch.data)])
    exact writeChain_append_one inv.wch (by rw [inv.wend, hchoff]) hdne
  case wend =>
    show logEnd 0 (st.writeLog ++ [(ch.offset, ch.data)]) = st.receivedSize + ch.size
    rw [logEnd_append]
    show ch.offset + ch.data.length = st.receivedSize + ch.size
    rw [hchoff, hlen]
  case wflat =>
    show flattenLog (st.writeLog ++ [(ch.offset, ch.data)]) = st.output ++ ch.data
    rw [flattenLog_append, inv.wflat]
    show st.output ++ (ch.data ++ []) = st.output ++ ch.data
    rw [List.append_nil]
  case sav => exact inv.sav

theorem flush_step_invD {file : List Nat} {st : DLState} (inv : InvD file st)
    {ch : RecvChunk} {rest : List RecvChunk}
    (h : rpop st.receivedSize st.received_chunks = some (ch, rest))
    (newCbLog : List (List Nat)) :
    InvD file { st with
      received_chunks := rest,
      output := st.output ++ ch.data,
      writeLog := st.writeLog ++ [(ch.offset, ch.data)],
      cbLog := newCbLog,
      receivedSize := st.receivedSize + ch.size } := by
  obtain ⟨hchoff, hperm_r⟩ := rpop_some h
  have hchmem : ch ∈ st.received_chunks := hperm_r.symm.subset (List.mem_cons_self _ _)
  obtain ⟨hlen, _⟩ := inv.rsz ch hchmem
  refine { toInvS := flush_step_invS inv.toInvS h newCbLog,
           fsEq := inv.fsEq,
           rdata := ?_,
           otake := ?_ }
  · intro c hc
    exact inv.rdata c (hperm_r.symm.subset (List.mem_cons_of_mem _ hc))
  · show st.output ++ ch.data = file.take (st.receivedSize + ch.size)
    rw [List.take_add, inv.otake.symm, inv.rdata ch hchmem, hchoff]

theorem flushChunksF_ok_invS : ∀ (fuel : Nat)
    {cb : Option (List Nat → Option String)} {st st' : DLState}, InvS st →
    flushChunksF cb fuel st = .ok st' →
    InvS st' ∧ st'.fileSize = st.fileSize ∧ st'.requestedSize = st.requestedSize ∧
      st'.nextId = st.nextId ∧ st'.requested_chunks = st.requested_chunks ∧
      st'.saved_exception = st.saved_exception ∧ st'.issued = st.issued ∧
      st.receivedSize ≤ st'.receivedSize := by
  intro fuel
  induction fuel with
  | zero =>
    intro cb st st' inv h
    injection h with h
    subst h
    exact ⟨inv, rfl, rfl, rfl, rfl, rfl, rfl, Nat.le_refl _⟩
  | succ fuel ih =>
    intro cb st st' inv h
    cases hr : rpop st.receivedSize st.received_chunks with
    | none =>
      simp only [flushChunksF, hr] at h
      injection h with h
      subst h
      exact ⟨inv, rfl, rfl, rfl, rfl, rfl, rfl, Nat.le_refl _⟩
    | some pr =>
      obtain ⟨ch, rest⟩ := pr
      simp only [flushChunksF, hr] at h
      cases cb with
      | none =>
        have hstep := flush_step_invS inv hr st.cbLog
        obtain ⟨hS, e1, e2, e3, e4, e5, e6, e7⟩ := ih hstep h
        refine ⟨hS, e1, e2, e3, e4, e5, e6, ?_⟩
        refine Nat.le_trans ?_ e7
        show st.receivedSize ≤ st.receivedSize + ch.size
        omega
      | some c =>
        cases hc : c ch.data with
        | some msg =>
          simp only [hc] at h
          exact absurd h (by simp)
        | none =>
          simp only [hc] at h
          have hstep := flush_step_invS inv hr (st.cbLog ++ [ch.data])
          obtain ⟨hS, e1, e2, e3, e4, e5, e6, e7⟩ := ih hstep h
          refine ⟨hS, e1, e2, e3, e4, e5, e6, ?_⟩
          refine Nat.le_trans ?_ e7
          show st.receivedSize ≤ st.receivedSize + ch.size
          omega

theorem flushChunksF_ok_invD {file : List Nat} : ∀ (fuel : Nat)
    {cb : Option (List Nat → Option String)} {st st' : DLState}, InvD file st →
    flushChunksF cb fuel st = .ok st' → InvD file st' := by
  intro fuel
  induction fuel with
  | zero =>
    intro cb st st' inv h
    injection h with h
    subst h
    exact inv
  | succ fuel ih =>
    intro cb st st' inv h
    cases hr : rpop st.receivedSize st.received_chunks with
    | none =>
      simp only [flushChunksF, hr] at h
      injection h with h
      subst h
      exact inv
    | some pr =>
      obtain ⟨ch, rest⟩ := pr
      simp only [flushChunksF, hr] at h
      cases cb with
      | none => exact ih (flush_step_invD inv hr st.cbLog) h
      | some c =>
        cases hc : c ch.data with
        | some msg =>
          simp only [hc] at h
          exact absurd h (by simp)
        | none =>
          simp only [hc] at h
          exact ih (flush_step_invD inv hr (st.cbLog ++ [ch.data])) h

theorem flushChunksF_ok_post : ∀ (fuel : Nat)
    {cb : Option (List Nat → Option String)} {st st' : DLState},
    st.received_chunks.length ≤ fuel → flushChunksF cb fuel st = .ok st' →
    rpop st'.receivedSize st'.received_chunks = none := by
  intro fuel
  induction fuel with
  | zero =>
    intro cb st st' hlen h
    injection h with h
    subst h
    have : st.received_chunks = [] := List.eq_nil_of_length_eq_zero (by omega)
    rw [this]
    rfl
  | succ fuel ih =>
    intro cb st st' hlen h
    cases hr : rpop st.receivedSize st.received_chunks with
    | none =>
      simp only [flushChunksF, hr] at h
      injection h with h
      subst h
      exact hr
    | some pr =>
      obtain ⟨ch, rest⟩ := pr
      simp only [flushChunksF, hr] at h
      have hrl : rest.length < st.received_chunks.length := rpop_length hr
      cases cb with
      | none => exact ih (by show rest.length ≤ fuel; omega) h
      | some c =>
        cases hc : c ch.data with
        | some msg =>
          simp only [hc] at h
          exact absurd h (by simp)
        | none =>
          simp only [hc] at h
          exact ih (by show rest.length ≤ fuel; omega) h

theorem flushChunksF_none_total : ∀ (fuel : Nat) (st : DLState),
    ∃ st', flushChunksF none fuel st = .ok st' := by
  intro fuel
  induction fuel with
  | zero => intro st; exact ⟨st, rfl⟩
  | succ fuel ih =>
    intro st
    cases hr : rpop st.receivedSize st.received_chunks with
    | none => exact ⟨st, by simp only [flushChunksF, hr]⟩
    | some pr =>
      obtain ⟨ch, rest⟩ := pr
      obtain ⟨st', hst'⟩ := ih { st with
        received_chunks := rest,
        output := st.output ++ ch.data,
        writeLog := st.writeLog ++ [(ch.offset, ch.data)],
        receivedSize := st.receivedSize + ch.size }
      exact ⟨st', by simp only [flushChunksF, hr]; exact hst'⟩

/-! ### Initial state -/

theorem initState_invS (file : List Nat) : InvS (initState file) := by
  constructor
  case rle => exact Nat.le_refl _
  case qle => exact Nat.zero_le _
  case align => simp [initState]
  case pends => intro p hp; simp [initState] at hp
  case pnd => exact List.Pairwise.nil
  case rsz => intro ch hch; simp [initState] at hch
  case til =>
    constructor
    · intro iv hiv
      simp [initState, ivs] at hiv
    · intro x hx1 hx2
      exact absurd (Nat.lt_of_le_of_lt hx1 hx2) (Nat.lt_irrefl _)
  case win => show 0 + 0 ≤ DOWNLOAD_MAX_REQUESTS; decide
  case olen => rfl
  case iss => rfl
  case wch => trivial
  case wend => rfl
  case wflat => rfl
  case sav => intro e he; cases he

theorem initState_invD (file : List Nat) : InvD file (initState file) :=
  { toInvS := initState_invS file, fsEq := rfl,
    rdata := fun ch hch => absurd hch (by simp [initState]),
    otake := rfl }

/-! ### The deadlock check is structurally unreachable -/

theorem pend_empty_recv_empty {st : DLState} (inv : InvS st)
    (hp : st.requested_chunks = [])
    (hr : rpop st.receivedSize st.received_chunks = none) :
    st.received_chunks = [] := by
  by_cases hlt : st.receivedSize < st.requestedSize
  · exfalso
    have hcov := inv.til.cover st.receivedSize (Nat.le_refl _) hlt
    have hpos : 0 < (ivs st).countP (covP st.receivedSize) := by omega
    obtain ⟨iv, hiv, hciv⟩ := List.countP_pos_iff.mp hpos
    have hb := inv.til.bounds iv hiv
    rw [ivs, hp] at hiv
    simp only [List.map_nil, List.nil_append] at hiv
    obtain ⟨ch, hch, hcheq⟩ := List.mem_map.mp hiv
    have hoff : ch.offset = iv.1 := by rw [← hcheq]
    have hciv' : iv.1 ≤ st.receivedSize := by
      simp [covP] at hciv
      exact hciv.1
    have hoffeq : ch.offset = st.receivedSize := by
      have := hb.1
      omega
    exact rpop_none_iff.mp hr ch hch hoffeq
  · cases hrc : st.received_chunks with
    | nil => rfl
    | cons c rest =>
      exfalso
      have hmem : (c.offset, c.size) ∈ ivs st :=
        List.mem_append_right _ (List.mem_map.mpr ⟨c, by rw [hrc]; simp, rfl⟩)
      have hb := inv.til.bounds _ hmem
      have h1 : st.receivedSize ≤ c.offset := hb.1
      have h2 : c.offset + c.size ≤ st.requestedSize := hb.2.1
      have h3 : 1 ≤ c.size := hb.2.2
      omega

/-! ### Invariants hold at every observation point of a run -/

theorem loop_trace_invS : ∀ (frames : List Frame)
    {cb : Option (List Nat → Option String)} {st : DLState}, InvS st →
    ∀ s ∈ (downloadLoop cb frames st).1, InvS s := by
  intro frames
  induction frames with
  | nil =>
    intro cb st inv s hs
    simp only [downloadLoop] at hs
    simp at hs
    rw [hs]
    exact fillWindow_invS inv
  | cons f rest ih =>
    intro cb st inv s hs
    have inv1 : InvS (fillWindow st) := fillWindow_invS inv
    simp only [downloadLoop] at hs
    cases ha : async_response (fillWindow st) f with
    | error pe =>
      simp only [ha] at hs
      simp at hs
      rw [hs]
      exact inv1
    | ok st2 =>
      have hok := async_ok_invS inv1 ha
      simp only [ha] at hs
      cases hc : check_exception st2 with
      | error pe =>
        simp only [hc] at hs
        simp at hs
        rcases hs with hs | hs
        · rw [hs]; exact inv1
        · rw [hs]; exact hok.1
      | ok st3 =>
        obtain ⟨rfl, hnone⟩ := check_ok hc
        simp only [hc] at hs
        cases hf : flushChunks cb st3 with
        | error pe =>
          simp only [hf] at hs
          simp at hs
          rcases hs with hs | hs
          · rw [hs]; exact inv1
          · rw [hs]; exact hok.1
        | ok st4 =>
          have hfok := flushChunksF_ok_invS _ hok.1 hf
          simp only [hf] at hs
          by_cases hd : st4.fileSize ≤ st4.receivedSize
          · rw [if_pos hd] at hs
            simp at hs
            rcases hs with hs | hs | hs
            · rw [hs]; exact inv1
            · rw [hs]; exact hok.1
            · rw [hs]; exact hfok.1
          · rw [if_neg hd] at hs
            by_cases hq : st4.requested_chunks = [] ∧
                DOWNLOAD_MAX_REQUESTS ≤ st4.received_chunks.length
            · rw [if_pos hq] at hs
              simp at hs
              rcases hs with hs | hs | hs
              · rw [hs]; exact inv1
              · rw [hs]; exact hok.1
              · rw [hs]; exact hfok.1
            · rw [if_neg hq] at hs
              simp at hs
              rcases hs with hs | hs | hs | hs
              · rw [hs]; exact inv1
              · rw [hs]; exact hok.1
              · rw [hs]; exact hfok.1
              · exact ih hfok.1 s hs

/-! ### Error shapes -/

theorem async_error_shape {st st' : DLState} {f : Frame} {e : SFTPErr}
    (h : async_response st f = .error (e, st')) :
    e = SFTPErr.expectedData ∨ ∃ a b, e = SFTPErr.sizeMismatch a b := by
  cases f with
  | otherF =>
    simp only [async_response] at h
    injection h with h
    rw [show e = (e, st').1 from rfl, ← h]
    exact Or.inl rfl
  | statusF num err =>
    cases err with
    | none => simp only [async_response] at h; exact absurd h (by simp)
    | some msg => simp only [async_response] at h; exact absurd h (by simp)
  | dataF num d =>
    cases hl : plookup num st.requested_chunks with
    | none => simp only [async_response, hl] at h; exact absurd h (by simp)
    | some v =>
      obtain ⟨off, sz⟩ := v
      simp only [async_response, hl] at h
      split at h
      · injection h with h
        rw [show e = (e, st').1 from rfl, ← h]
        exact Or.inr ⟨sz, d.length, rfl⟩
      · exact absurd h (by simp)

theorem check_error {st st' : DLState} {e : SFTPErr}
    (h : check_exception st = .error (e, st')) : st.saved_exception = some e := by
  cases hs : st.saved_exception with
  | none => simp only [check_exception, hs] at h; exact absurd h (by simp)
  | some e0 =>
    simp only [check_exception, hs] at h
    injection h with h
    rw [show e = (e, st').1 from rfl, ← h]

theorem flushF_error_shape : ∀ (fuel : Nat)
    {cb : Option (List Nat → Option String)} {st st' : DLState} {e : SFTPErr},
    flushChunksF cb fuel st = .error (e, st') → ∃ msg, e = SFTPErr.callbackErr msg := by
  intro fuel
  induction fuel with
  | zero =>
    intro cb st st' e h
    exact absurd h (by simp [flushChunksF])
  | succ fuel ih =>
    intro cb st st' e h
    cases hr : rpop st.receivedSize st.received_chunks with
    | none =>
      simp only [flushChunksF, hr] at h
      exact absurd h (by simp)
    | some pr =>
      obtain ⟨ch, rest⟩ := pr
      simp only [flushChunksF, hr] at h
      cases cb with
      | none => exact ih h
      | some c =>
        cases hc : c ch.data with
        | some msg =>
          simp only [hc] at h
          injection h with h
          rw [show e = (e, st').1 from rfl, ← h]
          exact ⟨msg, rfl⟩
        | none =>
          simp only [hc] at h
          exact ih h

/-! ### The deadlock branch is never taken -/

theorem loop_not_queueFail : ∀ (frames : List Frame)
    {cb : Option (List Nat → Option String)} {st : DLState}, InvS st →
    ((downloadLoop cb frames st).2).isQueueFail = false := by
  intro frames
  induction frames with
  | nil =>
    intro cb st inv
    simp [downloadLoop, DLResult.isQueueFail]
  | cons f rest ih =>
    intro cb st inv
    have inv1 : InvS (fillWindow st) := fillWindow_invS inv
    simp only [downloadLoop]
    cases ha : async_response (fillWindow st) f with
    | error pe =>
      obtain ⟨e, st2⟩ := pe
      rcases async_error_shape ha with he | ⟨a, b, he⟩ <;>
        subst he <;> simp [DLResult.isQueueFail]
    | ok st2 =>
      have hok := async_ok_invS inv1 ha
      simp only [ha]
      cases hc : check_exception st2 with
      | error pe =>
        obtain ⟨e, st3⟩ := pe
        obtain ⟨msg, he⟩ := hok.1.sav e (check_error hc)
        subst he
        simp only [hc]
        simp [DLResult.isQueueFail]
      | ok st3 =>
        obtain ⟨rfl, hnone⟩ := check_ok hc
        simp only [hc]
        cases hf : flushChunks cb st3 with
        | error pe =>
          obtain ⟨e, st4⟩ := pe
          obtain ⟨msg, he⟩ := flushF_error_shape _ hf
          subst he
          simp only [hf]
          simp [DLResult.isQueueFail]
        | ok st4 =>
          have hfok := flushChunksF_ok_invS _ hok.1 hf
          simp only [hf]
          have hq : ¬(st4.requested_chunks = [] ∧
              DOWNLOAD_MAX_REQUESTS ≤ st4.received_chunks.length) := by
            rintro ⟨h1, h2⟩
            have hpost := flushChunksF_ok_post _ (Nat.le_refl _) hf
            have hrecv : st4.received_chunks = [] :=
              pend_empty_recv_empty hfok.1 h1 hpost
            rw [hrecv] at h2
            exact absurd h2 (by decide)
          by_cases hd : st4.fileSize ≤ st4.receivedSize
          · simp [if_pos hd, DLResult.isQueueFail]
          · rw [if_neg hd, if_neg hq]
            exact ih hfok.1

/-! ### Honest completion: the sink holds the exact file prefix -/

theorem loop_done_invD {file : List Nat} : ∀ (frames : List Frame)
    {cb : Option (List Nat → Option String)} {st st' : DLState}, InvD file st →
    Honest file frames → (downloadLoop cb frames st).2 = .done st' →
    InvD file st' ∧ st'.fileSize ≤ st'.receivedSize := by
  intro frames
  induction frames with
  | nil =>
    intro cb st st' inv hH h
    simp only [downloadLoop] at h
    exact absurd h (by simp)
  | cons f rest ih =>
    intro cb st st' inv hH h
    have inv1 : InvD file (fillWindow st) := fillWindow_invD inv
    simp only [downloadLoop] at h
    cases ha : async_response (fillWindow st) f with
    | error pe =>
      obtain ⟨e, st2⟩ := pe
      simp only [ha] at h
      exact absurd h (by simp)
    | ok st2 =>
      have hD2 : InvD file st2 := async_ok_invD inv1 (hH f (by simp)) ha
      simp only [ha] at h
      cases hc : check_exception st2 with
      | error pe =>
        obtain ⟨e, st3⟩ := pe
        simp only [hc] at h
        exact absurd h (by simp)
      | ok st3 =>
        obtain ⟨rfl, hnone⟩ := check_ok hc
        simp only [hc] at h
        cases hf : flushChunks cb st3 with
        | error pe =>
          obtain ⟨e, st4⟩ := pe
          simp only [hf] at h
          exact absurd h (by simp)
        | ok st4 =>
          have hD4 : InvD file st4 := flushChunksF_ok_invD _ hD2 hf
          simp only [hf] at h
          by_cases hd : st4.fileSize ≤ st4.receivedSize
          · rw [if_pos hd] at h
            simp at h
            rw [← h]
            exact ⟨hD4, hd⟩
          · rw [if_neg hd] at h
            by_cases hq : st4.requested_chunks = [] ∧
                DOWNLOAD_MAX_REQUESTS ≤ st4.received_chunks.length
            · rw [if_pos hq] at h
              exact absurd h (by simp)
            · rw [if_neg hq] at h
              exact ih hD4 (fun g hg => hH g (by simp [hg])) h

/-! ### Completion under honest in-window responses, in any arrival order -/

theorem respData_length (file : List Nat) (n : Nat) :
    (respData file n).length =
      min DOWNLOAD_MAX_CHUNK_SIZE (file.length - n * DOWNLOAD_MAX_CHUNK_SIZE) := by
  simp only [respData, List.length_take, List.length_drop]
  exact Nat.min_eq_left (Nat.min_le_right _ _)

theorem loop_complete : ∀ (frames : List Frame) {file : List Nat} {st : DLState},
    InvD file st →
    st.saved_exception = none →
    st.requestedSize = file.length →
    rpop st.receivedSize st.received_chunks = none →
    st.receivedSize < file.length →
    frames.Perm (st.requested_chunks.map (fun p => Frame.dataF p.1 (respData file p.1))) →
    ∃ st', (downloadLoop none frames st).2 = .done st' ∧ st'.output = file ∧
      st'.receivedSize = file.length ∧ st'.issued = st.issued := by
  intro frames
  induction frames with
  | nil =>
    intro file st inv hsav hreq hrp hlt hperm
    exfalso
    have hlen0 := hperm.length_eq
    simp only [List.length_nil, List.length_map] at hlen0
    have hpend : st.requested_chunks = [] :=
      List.eq_nil_of_length_eq_zero hlen0.symm
    have hlt' : st.receivedSize < st.requestedSize := by omega
    have hrecv : st.received_chunks = [] :=
      pend_empty_recv_empty inv.toInvS hpend hrp
    have hcov := inv.til.cover st.receivedSize (Nat.le_refl _) hlt'
    rw [ivs, hpend, hrecv] at hcov
    simp at hcov
  | cons f rest ih =>
    intro file st inv hsav hreq hrp hlt hperm
    have hfmem : f ∈ st.requested_chunks.map
        (fun p => Frame.dataF p.1 (respData file p.1)) :=
      hperm.subset (List.mem_cons_self _ _)
    obtain ⟨p, hp, hfeq⟩ := List.mem_map.mp hfmem
    obtain ⟨num, off, sz⟩ := p
    subst hfeq
    have hfill : fillWindow st = st := by
      apply fillWindow_of_full
      rw [inv.fsEq, ← hreq]
    have hpl : plookup num st.requested_chunks = some (off, sz) :=
      plookup_of_mem hp inv.pnd
    obtain ⟨hplt, hoff, hszm⟩ := inv.pends _ hp
    have hoff' : off = num * DOWNLOAD_MAX_CHUNK_SIZE := hoff
    have hszm' : sz = min DOWNLOAD_MAX_CHUNK_SIZE (st.fileSize - off) := hszm
    have hlen : (respData file num).length = sz := by
      rw [respData_length, hszm', hoff', inv.fsEq]
    obtain ⟨st2, hasync, hst2pend, hst2sav, hst2req, hst2iss, hst2fs⟩ :
        ∃ st2, async_response st (Frame.dataF num (respData file num)) = .ok st2 ∧
          st2.requested_chunks = perase num st.requested_chunks ∧
          st2.saved_exception = st.saved_exception ∧
          st2.requestedSize = st.requestedSize ∧
          st2.issued = st.issued ∧ st2.fileSize = st.fileSize := by
      refine ⟨{ st with
          requested_chunks := perase num st.requested_chunks,
          received_chunks :=
            rinsert ⟨off, sz, respData file num⟩ st.received_chunks },
        ?_, rfl, rfl, rfl, rfl, rfl⟩
      simp only [async_response, hpl]
      rw [if_neg (by omega)]
    have hD2 : InvD file st2 :=
      async_ok_invD inv
        (show HonestF file (Frame.dataF num (respData file num)) from rfl) hasync
    obtain ⟨st4, hflushF⟩ := flushChunksF_none_total st2.received_chunks.length st2
    have hflush : flushChunks none st2 = .ok st4 := hflushF
    have hfok := flushChunksF_ok_invS _ hD2.toInvS hflushF
    have hD4 : InvD file st4 := flushChunksF_ok_invD _ hD2 hflushF
    have hpost : rpop st4.receivedSize st4.received_chunks = none :=
      flushChunksF_ok_post _ (Nat.le_refl _) hflushF
    obtain ⟨hS4, e1, e2, e3, e4, e5, e6, e7⟩ := hfok
    have hc : check_exception st2 = .ok st2 := by
      have hsav2 : st2.saved_exception = none := hst2sav.trans hsav
      simp only [check_exception, hsav2]
    have hfs4 : st4.fileSize = file.length := by
      rw [e1, hst2fs, inv.fsEq]
    have hreq4 : st4.requestedSize = file.length := by
      rw [e2, hst2req, hreq]
    have hiss4 : st4.issued = st.issued := by
      rw [e6, hst2iss]
    simp only [downloadLoop, hfill, hasync, hc, hflush]
    by_cases hd : st4.fileSize ≤ st4.receivedSize
    · have hrecv4 : st4.receivedSize = file.length := by
        have h1 := hS4.rle
        have h2 := hS4.qle
        omega
      refine ⟨st4, ?_, ?_, hrecv4, hiss4⟩
      · rw [if_pos hd]
      · rw [hD4.otake, hrecv4, List.take_length]
    · have hq : ¬(st4.requested_chunks = [] ∧
          DOWNLOAD_MAX_REQUESTS ≤ st4.received_chunks.length) := by
        rintro ⟨h1, h2⟩
        have hrecv : st4.received_chunks = [] :=
          pend_empty_recv_empty hS4 h1 hpost
        rw [hrecv] at h2
        exact absurd h2 (by decide)
      rw [if_neg hd, if_neg hq]
      have hpermrest : rest.Perm (st4.requested_chunks.map
          (fun p => Frame.dataF p.1 (respData file p.1))) := by
        rw [e4, hst2pend]
        have hpermp : st.requested_chunks.Perm
            ((num, off, sz) :: perase num st.requested_chunks) :=
          perm_perase hp inv.pnd
        have hmap := hpermp.map (fun p => Frame.dataF p.1 (respData file p.1))
        exact List.Perm.cons_inv (hperm.trans hmap)
      obtain ⟨st', hdone', hout', hrecv', hiss'⟩ :=
        ih hD4 (e5.trans (hst2sav.trans hsav)) hreq4 hpost (by omega) hpermrest
      exact ⟨st', hdone', hout', hrecv', hiss'.trans hiss4⟩

/-! ### `fillWindow` runs to quiescence and is idempotent -/

theorem fillWindowF_stop : ∀ (fuel : Nat) (st : DLState),
    st.fileSize - st.requestedSize ≤ fuel →
    ¬((fillWindowF fuel st).requested_chunks.length +
        (fillWindowF fuel st).received_chunks.length < DOWNLOAD_MAX_REQUESTS ∧
      (fillWindowF fuel st).requestedSize < (fillWindowF fuel st).fileSize) := by
  intro fuel
  induction fuel with
  | zero =>
    intro st hf
    rintro ⟨-, hlt⟩
    show False
    have : st.requestedSize < st.fileSize := hlt
    omega
  | succ fuel ih =>
    intro st hf
    simp only [fillWindowF]
    split
    · rename_i hg
      apply ih
      have hm1 : 1 ≤ min DOWNLOAD_MAX_CHUNK_SIZE (st.fileSize - st.requestedSize) :=
        Nat.lt_min.mpr ⟨by decide, by omega⟩
      show st.fileSize - (st.requestedSize +
        min DOWNLOAD_MAX_CHUNK_SIZE (st.fileSize - st.requestedSize)) ≤ fuel
      omega
    · rename_i hg
      exact hg

theorem fillWindow_stop (st : DLState) :
    ¬((fillWindow st).requested_chunks.length +
        (fillWindow st).received_chunks.length < DOWNLOAD_MAX_REQUESTS ∧
      (fillWindow st).requestedSize < (fillWindow st).fileSize) :=
  fillWindowF_stop _ st (Nat.le_refl _)

theorem fillWindow_idem (st : DLState) : fillWindow (fillWindow st) = fillWindow st := by
  show fillWindowF ((fillWindow st).fileSize - (fillWindow st).requestedSize)
    (fillWindow st) = fillWindow st
  cases h : (fillWindow st).fileSize - (fillWindow st).requestedSize with
  | zero => rfl
  | succ n =>
    simp only [fillWindowF]
    rw [if_neg (fillWindow_stop st)]

theorem downloadLoop_fillWindow (cb : Option (List Nat → Option String))
    (frames : List Frame) (st : DLState) :
    downloadLoop cb frames st = downloadLoop cb frames (fillWindow st) := by
  cases frames with
  | nil => simp only [downloadLoop, fillWindow_idem]
  | cons f rest => simp only [downloadLoop, fillWindow_idem]

/-! ### `splitSlash` lemmas -/

theorem splitSlash_ne_nil : ∀ (l : List Char), splitSlash l ≠ [] := by
  intro l
  cases l with
  | nil => simp [splitSlash]
  | cons c rest =>
    simp only [splitSlash]
    split
    · simp
    · split
      · simp
      · simp

theorem splitSlash_long_of_mem : ∀ {l : List Char}, '/' ∈ l →
    1 < (splitSlash l).length := by
  intro l
  induction l with
  | nil => intro h; simp at h
  | cons c rest ih =>
    intro h
    by_cases hc : c = '/'
    · simp only [splitSlash, if_pos hc]
      have := splitSlash_ne_nil rest
      cases hr : splitSlash rest with
      | nil => exact absurd hr this
      | cons a t => simp
    · have hmem : '/' ∈ rest := by
        rcases List.mem_cons.mp h with h | h
        · exact absurd h.symm hc
        · exact h
      have hlen := ih hmem
      simp only [splitSlash, if_neg hc]
      cases hr : splitSlash rest with
      | nil => exact absurd hr (splitSlash_ne_nil rest)
      | cons a t =>
        rw [hr] at hlen
        simpa using hlen

/-! ### Claim theorems -/

/-- C1: for every download over any sequence of response arrivals (any
order, duplicates, status frames allowed) in which data frames carry the
remote file's true bytes for their correlation id, if the download
completes then the bytes written to the sink equal the remote file's bytes
exactly, and the write log is an unbroken chain from offset 0: each
buffered chunk was written only when its offset equalled the current
committed size, so offsets are strictly increasing with no gaps and no
duplicates, and no byte was released before every preceding byte. -/
theorem C1_sink_equals_file (cb : Option (List Nat → Option String))
    (file : List Nat) (frames : List Frame) (st : DLState)
    (hH : Honest file frames) (hdone : download cb file frames = .done st) :
    st.output = file ∧ st.receivedSize = file.length ∧
      WriteChain 0 st.writeLog ∧ logEnd 0 st.writeLog = st.receivedSize ∧
      flattenLog st.writeLog = st.output := by
  obtain ⟨hD, hge⟩ := loop_done_invD frames (initState_invD file) hH hdone
  have h1 := hD.rle
  have h2 := hD.qle
  have h3 := hD.fsEq
  have hrecv : st.receivedSize = file.length := by omega
  refine ⟨?_, hrecv, hD.wch, hD.wend, hD.wflat⟩
  rw [hD.otake, hrecv, List.take_length]

theorem C1_sink_equals_file_witness :
    (download none [5, 6] [Frame.dataF 0 (respData [5, 6] 0)]).stateOf.output = [5, 6] ∧
    WriteChain 0 (download none [5, 6] [Frame.dataF 0 (respData [5, 6] 0)]).stateOf.writeLog :=
  have h := C1_sink_equals_file none [5, 6] [Frame.dataF 0 (respData [5, 6] 0)]
    (download none [5, 6] [Frame.dataF 0 (respData [5, 6] 0)]).stateOf
    (by intro f hf
        rw [List.mem_singleton] at hf
        subst hf
        exact rfl)
    (by decide)
  ⟨h.1, h.2.2.1⟩

/-- C3: at every observation point of every transfer,
`committedSize ≤ requestedSize ≤ fileSize`; moreover the number of bytes
flushed to the sink equals `committedSize`, so sink bytes never exceed
requested bytes, which never exceed the file size. -/
theorem C3_committed_le_requested_le_fileSize
    (cb : Option (List Nat → Option String)) (file : List Nat)
    (frames : List Frame) (s : DLState) (hs : s ∈ downloadStates cb file frames) :
    s.output.length = s.receivedSize ∧ s.receivedSize ≤ s.requestedSize ∧
      s.requestedSize ≤ s.fileSize := by
  simp only [downloadStates] at hs
  rcases List.mem_cons.mp hs with rfl | hs
  · exact ⟨rfl, Nat.le_refl _, Nat.zero_le _⟩
  · have inv := loop_trace_invS frames (initState_invS file) s hs
    exact ⟨inv.olen, inv.rle, inv.qle⟩

theorem C3_committed_le_requested_le_fileSize_witness :
    (initState [1]).output.length = (initState [1]).receivedSize ∧
    (initState [1]).receivedSize ≤ (initState [1]).requestedSize ∧
    (initState [1]).requestedSize ≤ (initState [1]).fileSize :=
  C3_committed_le_requested_le_fileSize none [1] [] (initState [1]) (by decide)

/-- C4: at every observation point of every transfer, the number of pending
requests plus the number of buffered not-yet-flushed chunks is at most the
window limit (48), and consequently the buffered unflushed bytes never
exceed `windowLimit * chunkSize = 48 * 32768`, independent of the total
file size. -/
theorem C4_window_and_memory_bound
    (cb : Option (List Nat → Option String)) (file : List Nat)
    (frames : List Frame) (s : DLState) (hs : s ∈ downloadStates cb file frames) :
    s.requested_chunks.length + s.received_chunks.length ≤ DOWNLOAD_MAX_REQUESTS ∧
      recvBytes s ≤ DOWNLOAD_MAX_REQUESTS * DOWNLOAD_MAX_CHUNK_SIZE := by
  have hinv : InvS s := by
    simp only [downloadStates] at hs
    rcases List.mem_cons.mp hs with rfl | hs
    · exact initState_invS file
    · exact loop_trace_invS frames (initState_invS file) s hs
  refine ⟨hinv.win, ?_⟩
  have h1 : recvBytes s ≤ s.received_chunks.length * DOWNLOAD_MAX_CHUNK_SIZE :=
    sum_map_le _ (fun ch hch => (hinv.rsz ch hch).1 ▸ (hinv.rsz ch hch).2)
  have h2 : s.received_chunks.length ≤ DOWNLOAD_MAX_REQUESTS := by
    have := hinv.win
    omega
  exact Nat.le_trans h1 (Nat.mul_le_mul_right _ h2)

theorem C4_window_and_memory_bound_witness :
    (initState [1]).requested_chunks.length + (initState [1]).received_chunks.length ≤
      DOWNLOAD_MAX_REQUESTS ∧
    recvBytes (initState [1]) ≤ DOWNLOAD_MAX_REQUESTS * DOWNLOAD_MAX_CHUNK_SIZE :=
  C4_window_and_memory_bound none [1] [] (initState [1]) (by decide)

/-- C7: from every reachable state of a download — for every file, every
frame sequence, and every callback — the branch that raises the
deadlock-consistency `ValueError` (pending set empty while the buffered
set is at window capacity with bytes still uncommitted) is never taken:
no run of `download` ever ends in that error, so the check is a purely
defensive assertion. -/
theorem C7_deadlock_branch_unreachable
    (cb : Option (List Nat → Option String)) (file : List Nat)
    (frames : List Frame) :
    (download cb file frames).isQueueFail = false :=
  loop_not_queueFail frames (initState_invS file)

/-- C8: for `fileSize = 0` the code issues zero read requests and commits
zero bytes, but it does not complete on its own: the loop performs one
blocking `_read_response()` before the termination check, so with no
incoming frame the transfer blocks forever, and it terminates only once
some frame arrives (here, a benign status frame).  This contradicts the
claim that the transfer completes with zero requests issued. -/
theorem C8_empty_file_blocks_before_termination_check :
    download none [] [] = .blocked (initState []) ∧
    (fillWindow (initState [])).issued = [] ∧
    (initState []).output = [] ∧
    (download none [] [Frame.statusF 0 none]).isDone = true ∧
    (download none [] [Frame.statusF 0 none]).stateOf.issued = [] ∧
    (download none [] [Frame.statusF 0 none]).stateOf.output = [] := by
  refine ⟨by decide, rfl, rfl, by decide, by decide, by decide⟩

/-- C5: whenever a data response's actual payload size differs from the
size recorded for the matching pending request, the dispatch raises the
size-mismatch `SFTPError` and the whole transfer fails with it; the
committed size, the sink content and the write log are unchanged by the
failing dispatch (no byte of the mismatched chunk is committed). -/
theorem C5_size_mismatch_fails_transfer
    (cb : Option (List Nat → Option String)) (frames : List Frame)
    (st : DLState) (num : Nat) (d : List Nat) (off sz : Nat)
    (hpl : plookup num (fillWindow st).requested_chunks = some (off, sz))
    (hne : sz ≠ d.length) :
    (downloadLoop cb (Frame.dataF num d :: frames) st).2 =
      .failed (.sizeMismatch sz d.length)
        { fillWindow st with
          requested_chunks := perase num (fillWindow st).requested_chunks } ∧
    ((downloadLoop cb (Frame.dataF num d :: frames) st).2).stateOf.receivedSize =
      st.receivedSize ∧
    ((downloadLoop cb (Frame.dataF num d :: frames) st).2).stateOf.output = st.output ∧
    ((downloadLoop cb (Frame.dataF num d :: frames) st).2).stateOf.writeLog = st.writeLog := by
  have hasync : async_response (fillWindow st) (Frame.dataF num d) =
      .error (.sizeMismatch sz d.length,
        { fillWindow st with
          requested_chunks := perase num (fillWindow st).requested_chunks }) := by
    simp only [async_response, hpl]
    rw [if_pos hne]
  have hres : (downloadLoop cb (Frame.dataF num d :: frames) st).2 =
      .failed (.sizeMismatch sz d.length)
        { fillWindow st with
          requested_chunks := perase num (fillWindow st).requested_chunks } := by
    simp only [downloadLoop, hasync]
  obtain ⟨hc1, hc2, hc3, hc4, hc5, hc6, hc7⟩ :=
    fillWindowF_const (st.fileSize - st.requestedSize) st
  refine ⟨hres, ?_, ?_, ?_⟩ <;> rw [hres] <;> simp only [DLResult.stateOf]
  · exact hc2
  · exact hc5
  · exact hc6

theorem C5_size_mismatch_fails_transfer_witness :
    (downloadLoop none [Frame.dataF 0 (List.replicate 100 0)] st200).2 =
      .failed (.sizeMismatch 200 100)
        { fillWindow st200 with
          requested_chunks := perase 0 (fillWindow st200).requested_chunks } ∧
    ((downloadLoop none [Frame.dataF 0 (List.replicate 100 0)] st200).2).stateOf.receivedSize =
      st200.receivedSize ∧
    ((downloadLoop none [Frame.dataF 0 (List.replicate 100 0)] st200).2).stateOf.output =
      st200.output ∧
    ((downloadLoop none [Frame.dataF 0 (List.replicate 100 0)] st200).2).stateOf.writeLog =
      st200.writeLog := by
  have h := C5_size_mismatch_fails_transfer none [] st200 0 (List.replicate 100 0)
    0 200 (by decide) (by decide)
  exact h

/-- C6: a status/error frame is recorded as the saved exception during
dispatch and dispatch returns normally (no raise mid-dispatch); the
exception is raised exactly at the driver's next inspection of the session
(`_check_exception`, immediately after the blocking receive), at which
point the transfer fails with the recorded status error. -/
theorem C6_status_error_deferred_to_check
    (cb : Option (List Nat → Option String)) (frames : List Frame)
    (st : DLState) (num : Nat) (msg : String) :
    async_response (fillWindow st) (Frame.statusF num (some msg)) =
      .ok { fillWindow st with saved_exception := some (.statusErr msg) } ∧
    check_exception { fillWindow st with saved_exception := some (.statusErr msg) } =
      .error (.statusErr msg, { fillWindow st with saved_exception := none }) ∧
    (downloadLoop cb (Frame.statusF num (some msg) :: frames) st).2 =
      .failed (.statusErr msg) { fillWindow st with saved_exception := none } := by
  refine ⟨rfl, rfl, ?_⟩
  simp only [downloadLoop, async_response, check_exception]

/-- C9 counterexample: the claim that exceptions raised by the progress
callback are not propagated into the transfer is false — with a callback
that raises, the very same download that otherwise completes instead
fails with the callback's error. -/
theorem C9_callback_failure_changes_outcome :
    (download (some boomCb) [7] [Frame.dataF 0 (respData [7] 0)]).errOf =
      some (.callbackErr "boom") ∧
    (download none [7] [Frame.dataF 0 (respData [7] 0)]).isDone = true := by
  exact ⟨rfl, rfl⟩

/-- C9 (amended): the progress callback is invoked synchronously from the
flush step with the flushed chunk's data (after the chunk is written to
the sink and before the committed size advances), and an exception raised
by the callback propagates out of the transfer: the flush step returns the
callback error and the download fails with it. -/
theorem C9_callback_invoked_and_error_propagates :
    (∀ (c : List Nat → Option String) (st : DLState) (ch : RecvChunk)
        (rest : List RecvChunk) (msg : String),
      rpop st.receivedSize st.received_chunks = some (ch, rest) →
      c ch.data = some msg →
      flushChunks (some c) st = .error (.callbackErr msg,
        { st with
          received_chunks := rest,
          output := st.output ++ ch.data,
          writeLog := st.writeLog ++ [(ch.offset, ch.data)],
          cbLog := st.cbLog ++ [ch.data] })) ∧
    (∀ (cb : Option (List Nat → Option String)) (f : Frame)
        (frames : List Frame) (st st2 st4 : DLState) (e : SFTPErr),
      async_response (fillWindow st) f = .ok st2 →
      st2.saved_exception = none →
      flushChunks cb st2 = .error (e, st4) →
      (downloadLoop cb (f :: frames) st).2 = .failed e st4) := by
  constructor
  · intro c st ch rest msg hr hc
    cases hlen : st.received_chunks with
    | nil =>
      rw [hlen] at hr
      cases hr
    | cons a l =>
      show flushChunksF (some c) st.received_chunks.length st = _
      rw [hlen]
      simp only [List.length_cons, flushChunksF, hr, hc]
  · intro cb f frames st st2 st4 e hasync hsav hflush
    have hc : check_exception st2 = .ok st2 := by
      simp only [check_exception, hsav]
    simp only [downloadLoop, hasync, hc, hflush]

theorem C9_callback_invoked_and_error_propagates_witness :
    flushChunks (some boomCb) flushSt =
      .error (.callbackErr "boom", flushStErr) ∧
    (downloadLoop (some boomCb) [Frame.statusF 0 none] flushSt).2 =
      .failed (.callbackErr "boom") flushStErr := by
  constructor
  · exact C9_callback_invoked_and_error_propagates.1 boomCb flushSt
      ⟨0, 1, [7]⟩ [] "boom" (by decide) rfl
  · exact C9_callback_invoked_and_error_propagates.2 (some boomCb)
      (Frame.statusF 0 none) [] flushSt flushSt flushStErr
      (.callbackErr "boom") rfl rfl
      (C9_callback_invoked_and_error_propagates.1 boomCb flushSt
        ⟨0, 1, [7]⟩ [] "boom" (by decide) rfl)

/-- C10: for every `upload_file` call whose remote path contains `'/'`,
`mkdir` on the parent directory is the first operation invoked, before any
data transfer; when the remote directory already exists (so `mkdir` raises
`IOError`), the call fails and no `put` is ever invoked — hence a second
upload into the same remote directory fails; when the directory does not
exist, the call performs exactly `mkdir`, `chdir`, `put`. -/
theorem C10_upload_mkdir_unconditional (dirExists : List Char → Bool)
    (rp lp : List Char) (hslash : '/' ∈ rp) :
    (upload_file dirExists rp lp).1.head? =
      some (SftpOp.mkdirOp
        (joinSlash ((splitSlash rp).take ((splitSlash rp).length - 1)))) ∧
    (dirExists (joinSlash ((splitSlash rp).take ((splitSlash rp).length - 1))) = true →
      (upload_file dirExists rp lp).2.isSome = true ∧
      ∀ l r, SftpOp.putOp l r ∉ (upload_file dirExists rp lp).1) ∧
    (dirExists (joinSlash ((splitSlash rp).take ((splitSlash rp).length - 1))) = false →
      (upload_file dirExists rp lp).1 =
        [SftpOp.mkdirOp (joinSlash ((splitSlash rp).take ((splitSlash rp).length - 1))),
         SftpOp.chdirOp (joinSlash ((splitSlash rp).take ((splitSlash rp).length - 1))),
         SftpOp.putOp lp (joinSlash ((splitSlash rp).drop ((splitSlash rp).length - 1)))] ∧
      (upload_file dirExists rp lp).2 = none) := by
  have hgt : 1 < (splitSlash rp).length := splitSlash_long_of_mem hslash
  by_cases hde : dirExists (joinSlash ((splitSlash rp).take ((splitSlash rp).length - 1))) = true
  · simp only [upload_file, if_pos hgt, if_pos hde]
    refine ⟨rfl, fun _ => ⟨rfl, ?_⟩, fun hfalse => absurd hde (by rw [hfalse]; simp)⟩
    intro l r hmem
    rw [List.mem_singleton] at hmem
    cases hmem
  · rw [Bool.not_eq_true] at hde
    simp only [upload_file, if_pos hgt, hde]
    refine ⟨rfl, fun htrue => absurd htrue (by simp), fun _ => ⟨?_, rfl⟩⟩
    simp

theorem C10_upload_mkdir_unconditional_witness :
    (upload_file (fun _ => true) ['a', '/', 'b'] ['f']).1.head? =
      some (SftpOp.mkdirOp
        (joinSlash ((splitSlash ['a', '/', 'b']).take
          ((splitSlash ['a', '/', 'b']).length - 1)))) ∧
    (upload_file (fun _ => true) ['a', '/', 'b'] ['f']).2.isSome = true := by
  have h := C10_upload_mkdir_unconditional (fun _ => true) ['a', '/', 'b'] ['f']
    (by decide)
  exact ⟨h.1, (h.2.1 rfl).1⟩

/-- C2: in every transfer, the issued requests follow
`chunkSize = min(maxChunkSize, fileSize - requestedSize)` at strictly
increasing offsets (request `n` covers
`[n*chunkSize, n*chunkSize + min(chunkSize, fileSize - n*chunkSize))`);
in particular, for `fileSize = 100000` with `chunkSize = 32768` and
`windowLimit = 48`, exactly 4 requests of sizes 32768, 32768, 32768 and
1696 are issued, and the transfer reaches DONE with all bytes committed
for every order in which the four replies arrive. -/
theorem C2_request_sequence_and_scenario :
    (∀ (cb : Option (List Nat → Option String)) (file : List Nat)
        (frames : List Frame) (s : DLState), s ∈ downloadStates cb file frames →
      s.issued = (List.range s.nextId).map
        (fun n => (n * DOWNLOAD_MAX_CHUNK_SIZE,
          min DOWNLOAD_MAX_CHUNK_SIZE (s.fileSize - n * DOWNLOAD_MAX_CHUNK_SIZE))) ∧
      s.issued.Pairwise (fun a b => a.1 < b.1)) ∧
    (∀ (file : List Nat) (frames : List Frame), file.length = 100000 →
      frames.Perm ([0, 1, 2, 3].map (respond file)) →
      ∃ st, download none file frames = .done st ∧ st.receivedSize = 100000 ∧
        st.output = file ∧ st.issued.length = 4 ∧
        st.issued = [(0, 32768), (32768, 32768), (65536, 32768), (98304, 1696)]) := by
  constructor
  · intro cb file frames s hs
    have hinv : InvS s := by
      simp only [downloadStates] at hs
      rcases List.mem_cons.mp hs with rfl | hs
      · exact initState_invS file
      · exact loop_trace_invS frames (initState_invS file) s hs
    refine ⟨hinv.iss, ?_⟩
    rw [hinv.iss]
    refine List.Pairwise.map _ ?_ (List.pairwise_lt_range _)
    intro a b hab
    show a * DOWNLOAD_MAX_CHUNK_SIZE < b * DOWNLOAD_MAX_CHUNK_SIZE
    have hC : DOWNLOAD_MAX_CHUNK_SIZE = 32768 := rfl
    rw [hC]
    omega
  · intro file frames hlen hperm
    have hinit : fillWindow (initState file) = fw100 := by
      show fillWindowF (file.length - 0) (initState file) = fw100
      unfold initState
      rw [hlen]
      decide
    have hD1 : InvD file fw100 := by
      rw [← hinit]
      exact fillWindow_invD (initState_invD file)
    have hmapeq : [0, 1, 2, 3].map (respond file) =
        fw100.requested_chunks.map (fun p => Frame.dataF p.1 (respData file p.1)) := rfl
    have hperm' : frames.Perm (fw100.requested_chunks.map
        (fun p => Frame.dataF p.1 (respData file p.1))) := by
      rw [← hmapeq]
      exact hperm
    have hreqfs : fw100.requestedSize = file.length := by
      show (100000 : Nat) = file.length
      exact hlen.symm
    have hltfs : fw100.receivedSize < file.length := by
      show (0 : Nat) < file.length
      rw [hlen]
      decide
    obtain ⟨st', h1, h2, h3, h4⟩ :=
      loop_complete frames hD1 rfl hreqfs rfl hltfs hperm'
    refine ⟨st', ?_, ?_, h2, ?_, ?_⟩
    · show (downloadLoop none frames (initState file)).2 = .done st'
      rw [downloadLoop_fillWindow, hinit]
      exact h1
    · rw [h3, hlen]
    · rw [h4]
      rfl
    · rw [h4]
      rfl

theorem C2_request_sequence_and_scenario_witness :
    ((initState [1]).issued = (List.range (initState [1]).nextId).map
      (fun n => (n * DOWNLOAD_MAX_CHUNK_SIZE,
        min DOWNLOAD_MAX_CHUNK_SIZE ((initState [1]).fileSize -
          n * DOWNLOAD_MAX_CHUNK_SIZE)))) ∧
    (download none (List.replicate 100000 0)
      ([0, 1, 2, 3].map (respond (List.replicate 100000 0)))).isDone = true := by
  constructor
  · exact (C2_request_sequence_and_scenario.1 none [1] [] (initState [1])
      (by decide)).1
  · obtain ⟨st', h1, h2, h3, h4⟩ := C2_request_sequence_and_scenario.2
      (List.replicate 100000 0) ([0, 1, 2, 3].map (respond (List.replicate 100000 0)))
      (List.length_replicate 100000 0) (List.Perm.refl _)
    rw [h1]
    rfl

end SftpEngine
